import Mathlib

/-!
Verification development for the Tribe chat client's synchronization and
optimistic-update core.  The definitions below are shallow embeddings of the
JavaScript source files:

* `src/utils/groupMessages.js` / `src/utils/formatDate.js` — message grouping;
* `src/state/messageStore.js` (guarded variant) — `addMessage`, `updateMessage`;
* the enhanced message store (optimistic reactions: `addReactionOptimistic`,
  `confirmReaction`, `revertReaction`, `removeReactionOptimistic`);
* `src/hooks/useChatSync.js` — `performBatchUpdates` (both the
  `Promise.allSettled` implementation and the legacy `Promise.all`+catch one);
* the `MessageInput` component's `handleSend`;
* `src/screens/requestQueue.js` — `RequestQueue`, embedded as a deterministic
  event-loop simulator (timers fire earliest-deadline first, FIFO on ties,
  matching the single-threaded JS task queue).

JS strings stay `String`, JS numbers used as counters/timestamps become `Nat`
(reaction counts become `Int`, since the source compares `newCount <= 0` after
a bare decrement), absent JS fields become `Option`, and `null`-returning
functions return `Option`.
-/

namespace TribeChat

/-- Participant reference as carried on a message (`message.participant`);
both fields may be absent (`message.participant?.uuid`). -/
structure PartRef where
  uuid : Option String
  name : Option String
deriving Repr, DecidableEq

/-- `Reaction` record: `{ emoji, count, participants, isOwnReaction }`.
`count` is `Int` because the source decrements it and then tests
`newCount <= 0`.  `isOwnReaction` is optional: reactions coming from the
server need not carry it. -/
structure Reaction where
  emoji : String
  count : Int
  participants : List String
  isOwnReaction : Option Bool
deriving Repr, DecidableEq

/-- `Message` record as used by the stores and by `handleSend`. -/
structure Message where
  uuid : String
  text : String
  status : Option String
  createdAt : Nat
  participant : Option PartRef
  reactions : List Reaction
deriving Repr, DecidableEq

/-- A partial message object passed to `updateMessage`; the JS call sites pass
object literals whose fields overwrite the stored message via
`{ ...m, ...updatedMsg }`.  Absent fields keep the stored value. -/
structure MessageUpdate where
  uuid : String
  text : Option String
  status : Option (Option String)
  createdAt : Option Nat
  participant : Option (Option PartRef)
  reactions : Option (List Reaction)
deriving Repr, DecidableEq

/-- JS object spread `{ ...m, ...u }` for a message and an update object. -/
def mergeMessage (m : Message) (u : MessageUpdate) : Message :=
  { uuid := u.uuid
    text := u.text.getD m.text
    status := u.status.getD m.status
    createdAt := u.createdAt.getD m.createdAt
    participant := u.participant.getD m.participant
    reactions := u.reactions.getD m.reactions }

/-- View a full message as an update object (all fields present), as when a
whole server message is passed to `updateMessage`. -/
def toUpdate (m : Message) : MessageUpdate :=
  { uuid := m.uuid, text := some m.text, status := some m.status
    createdAt := some m.createdAt, participant := some m.participant
    reactions := some m.reactions }

/-- `messageStore.addMessage`: reject falsy/duplicate uuid, else prepend
(`set({ messages: [msg, ...messages] })`). -/
def addMessage (msgs : List Message) (msg : Message) : List Message :=
  if msg.uuid = "" then msgs
  else if msgs.any (fun m => m.uuid = msg.uuid) then msgs
  else msg :: msgs

/-- `messageStore.updateMessage`: reject falsy uuid, else
`messages.map(m => m.uuid === updatedMsg.uuid ? { ...m, ...updatedMsg } : m)`. -/
def updateMessage (msgs : List Message) (u : MessageUpdate) : List Message :=
  if u.uuid = "" then msgs
  else msgs.map fun m => if m.uuid = u.uuid then mergeMessage m u else m

/-! ### handleSend (MessageInput component) -/

/-- The optimistic placeholder built by `handleSend`:
`{ uuid: temp-${Date.now()}, text, status: 'sending', createdAt, participant: { name: 'You' } }`. -/
def tempMessage (text : String) (now : Nat) : Message :=
  { uuid := "temp-" ++ toString now
    text := text
    status := some "sending"
    createdAt := now
    participant := some { uuid := none, name := some "You" }
    reactions := [] }

/-- The optimistic phase of `handleSend`: `addMessage(tempMessage)`. -/
def handleSendOptimistic (msgs : List Message) (text : String) (now : Nat) :
    List Message :=
  addMessage msgs (tempMessage text now)

/-- The success continuation of `handleSend`:
`updateMessage({ ...newMessage, status: 'sent' })` where `newMessage` is the
server's response to `sendMessage`. -/
def handleSendSuccess (msgs : List Message) (newMessage : Message) :
    List Message :=
  updateMessage msgs { toUpdate newMessage with status := some (some "sent") }

/-! ### Enhanced message store: optimistic reactions -/

/-- Ledger entry stored in `optimisticMessages` under the generated key:
`{ messageId, emoji, userId, timestamp, type }`. -/
structure OptEntry where
  messageId : String
  emoji : String
  userId : String
  timestamp : Nat
  kind : String
deriving Repr, DecidableEq

/-- `Map.set`: overwrite an existing key in place, else append. -/
def setAssoc {α : Type} : List (String × α) → String → α → List (String × α)
  | [], k, v => [(k, v)]
  | (k', v') :: rest, k, v =>
    if k' = k then (k, v) :: rest else (k', v') :: setAssoc rest k v

/-- `Map.get`. -/
def getAssoc {α : Type} (l : List (String × α)) (k : String) : Option α :=
  (l.find? fun p => p.1 = k).map (·.2)

/-- `Map.delete`. -/
def delAssoc {α : Type} : List (String × α) → String → List (String × α)
  | [], _ => []
  | (k', v') :: rest, k =>
    if k' = k then rest else (k', v') :: delAssoc rest k

/-- The enhanced store's state: the message list plus the optimistic ledger
(`optimisticMessages`, a `Map` keyed by generated string keys). -/
structure Store where
  messages : List Message
  optimistic : List (String × OptEntry)
deriving Repr, DecidableEq

/-- `messages.map(m => m.uuid === messageId ? updatedMessage : m)`. -/
def setMsg (msgs : List Message) (mid : String) (newMsg : Message) :
    List Message :=
  msgs.map fun m => if m.uuid = mid then newMsg else m

/-- `reactions.find(r => r.emoji === emoji)`. -/
def findReaction (rs : List Reaction) (e : String) : Option Reaction :=
  rs.find? fun r => r.emoji = e

/-- The `findIndex` + assignment step of `addReactionOptimistic`: the first
reaction with the given emoji gets `count + 1` and the user appended to its
participants; everything else is untouched. -/
def incFirst : List Reaction → String → String → List Reaction
  | [], _, _ => []
  | r :: rs, e, u =>
    if r.emoji = e then
      { r with count := r.count + 1, participants := r.participants ++ [u] } :: rs
    else r :: incFirst rs e u

/-- The per-reaction body shared by `revertReaction` and
`removeReactionOptimistic`: decrement the count, drop the user from the
participants, recompute `isOwnReaction`, and return `null` (dropped by the
`.filter(Boolean)`) once the count reaches zero. -/
def revertOne (u : String) (r : Reaction) : Option Reaction :=
  let newCount := r.count - 1
  let newParticipants := r.participants.filter fun p => p ≠ u
  if newCount ≤ 0 then none
  else some { r with count := newCount, participants := newParticipants,
                     isOwnReaction := some (newParticipants.contains "you") }

/-- `reactions.map(r => r.emoji === emoji ? ...decrement... : r).filter(Boolean)`. -/
def decrReactions (rs : List Reaction) (e u : String) : List Reaction :=
  rs.filterMap fun r => if r.emoji = e then revertOne u r else some r

/-- `addReactionOptimistic(messageId, emoji, userId)` of the enhanced store:
guards (falsy arguments, missing message, duplicate reaction by the same
user) return `null` with the state untouched; otherwise the reaction is
applied to the message and a ledger entry is recorded under the key
`${messageId}-${emoji}-${userId}-${Date.now()}`. -/
def addReactionOptimistic (now : Nat) (s : Store) (mid e u : String) :
    Option String × Store :=
  if mid = "" ∨ e = "" then (none, s)
  else
    match s.messages.find? fun m => m.uuid = mid with
    | none => (none, s)
    | some msg =>
      let existing := findReaction msg.reactions e
      let alreadyReacted := match existing with
        | some r => r.participants.contains u
        | none => false
      if alreadyReacted then (none, s)
      else
        let key := mid ++ "-" ++ e ++ "-" ++ u ++ "-" ++ toString now
        let entry : OptEntry :=
          { messageId := mid, emoji := e, userId := u, timestamp := now,
            kind := "add_reaction" }
        let newReactions := match existing with
          | some _ => incFirst msg.reactions e u
          | none =>
            msg.reactions ++
              [{ emoji := e, count := 1, participants := [u],
                 isOwnReaction := some (decide (u = "you")) }]
        (some key,
          { messages := setMsg s.messages mid { msg with reactions := newReactions }
            optimistic := setAssoc s.optimistic key entry })

/-- `confirmReaction(optimisticKey)`: drop the ledger entry, leave messages
alone. -/
def confirmReaction (s : Store) (key : String) : Store :=
  if key = "" then s
  else
    match getAssoc s.optimistic key with
    | none => s
    | some _ => { s with optimistic := delAssoc s.optimistic key }

/-- `revertReaction(optimisticKey)`: look up the ledger entry and undo the
recorded mutation on the target message, then drop the entry.  If the target
message no longer exists the function returns early (ledger untouched). -/
def revertReaction (s : Store) (key : String) : Store :=
  if key = "" then s
  else
    match getAssoc s.optimistic key with
    | none => s
    | some entry =>
      match s.messages.find? fun m => m.uuid = entry.messageId with
      | none => s
      | some msg =>
        let newReactions := decrReactions msg.reactions entry.emoji entry.userId
        { messages :=
            setMsg s.messages entry.messageId { msg with reactions := newReactions }
          optimistic := delAssoc s.optimistic key }

/-- `removeReactionOptimistic(messageId, emoji, userId)`: guards (falsy
arguments, missing message, user has not reacted) return `null`; otherwise
the user's reaction is removed and a `-remove` ledger entry recorded. -/
def removeReactionOptimistic (now : Nat) (s : Store) (mid e u : String) :
    Option String × Store :=
  if mid = "" ∨ e = "" then (none, s)
  else
    match s.messages.find? fun m => m.uuid = mid with
    | none => (none, s)
    | some msg =>
      let hasReacted := match findReaction msg.reactions e with
        | some r => r.participants.contains u
        | none => false
      if !hasReacted then (none, s)
      else
        let key := mid ++ "-" ++ e ++ "-" ++ u ++ "-" ++ toString now ++ "-remove"
        let entry : OptEntry :=
          { messageId := mid, emoji := e, userId := u, timestamp := now,
            kind := "remove_reaction" }
        (some key,
          { messages :=
              setMsg s.messages mid
                { msg with reactions := decrReactions msg.reactions e u }
            optimistic := setAssoc s.optimistic key entry })

/-- Ledger entry of the minimal `messageStore.js` variant (lines 47–53):
`{ messageId, emoji, type: 'add' }`. -/
structure MinEntry where
  messageId : String
  emoji : String
  kind : String
deriving Repr, DecidableEq

/-- `addReactionOptimistic` of the minimal `messageStore.js` variant: no
guards at all — it only records a ledger entry under
`${messageId}-${emoji}-${Date.now()}` and returns that key. -/
def addReactionOptimisticMin (now : Nat) (led : List (String × MinEntry))
    (mid e : String) : String × List (String × MinEntry) :=
  let tempId := mid ++ "-" ++ e ++ "-" ++ toString now
  (tempId, setAssoc led tempId { messageId := mid, emoji := e, kind := "add" })

/-! ### Grouping (`groupMessages.js`)

`isSameDay(a, b)` is `dayjs(a).isSame(b, 'day')`: two timestamps agree on the
local calendar day.  We model the day extraction as an arbitrary function
`dayOf : Nat → Nat`, so `isSameDay a b` is `dayOf a = dayOf b`. -/

/-- Message record as consumed and produced by `groupMessages`: the function
reads `participant?.uuid` and `createdAt`, spreads the rest, and writes the
`isGrouped` / `dateSeparator` fields. -/
structure GMsg where
  uuid : String
  text : String
  participant : Option PartRef
  createdAt : Nat
  isGrouped : Option Bool
  dateSeparator : Option Bool
deriving Repr, DecidableEq

/-- `current.participant?.uuid`. -/
def gPuuid (m : GMsg) : Option String := m.participant.bind (·.uuid)

/-- One iteration of the `groupMessages` loop: compute
`isSameSender = prev && current.participant?.uuid === prev.participant?.uuid`
and `isSameDayFlag = prev && isSameDay(current.createdAt, prev.createdAt)`,
then push `{ ...current, isGrouped: isSameSender && isSameDayFlag,
dateSeparator: !isSameDayFlag }`.  When there is no previous message both
flags' conjunction is `undefined` (modelled `none`) and `dateSeparator` is
`true`. -/
def flagMsg (dayOf : Nat → Nat) (prev : Option GMsg) (cur : GMsg) : GMsg :=
  match prev with
  | none => { cur with isGrouped := none, dateSeparator := some true }
  | some p =>
    let sameSender : Bool := decide (gPuuid cur = gPuuid p)
    let sameDay : Bool := decide (dayOf cur.createdAt = dayOf p.createdAt)
    { cur with isGrouped := some (sameSender && sameDay)
               dateSeparator := some (!sameDay) }

/-- The loop of `groupMessages`, threading the previous message. -/
def groupGo (dayOf : Nat → Nat) (prev : Option GMsg) : List GMsg → List GMsg
  | [] => []
  | m :: rest => flagMsg dayOf prev m :: groupGo dayOf (some m) rest

/-- `groupMessages(messages)`. -/
def groupMessages (dayOf : Nat → Nat) (msgs : List GMsg) : List GMsg :=
  groupGo dayOf none msgs

/-! ### Sync engine: `performBatchUpdates` (`useChatSync.js`) -/

/-- Participant record (`participantStore.js`). -/
structure Participant where
  uuid : String
  name : String
deriving Repr, DecidableEq

/-- `participantStore.updateParticipant`: upsert-on-uuid — append when the
uuid is unknown, else merge in place (a full server object overwrites every
field). -/
def updateParticipant (ps : List Participant) (p : Participant) :
    List Participant :=
  if p.uuid = "" then ps
  else if ps.any (fun q => q.uuid = p.uuid) then
    ps.map fun q => if q.uuid = p.uuid then p else q
  else ps ++ [p]

/-- The slice of hook state read and written by `performBatchUpdates`:
the two stores, the session's `lastUpdateTime` cursor, and the
`consecutiveErrors` counter bumped by `handleSyncError`. -/
structure SyncState where
  messages : List Message
  participants : List Participant
  lastUpdateTime : Nat
  consecutiveErrors : Nat
deriving Repr, DecidableEq

/-- `updatedMessages.forEach(m => updateMessage(m))`. -/
def applyMessageDeltas (msgs : List Message) (delta : List MessageUpdate) :
    List Message :=
  delta.foldl updateMessage msgs

/-- `updatedParticipants.forEach(p => updateParticipant(p))`. -/
def applyParticipantDeltas (ps : List Participant) (delta : List Participant) :
    List Participant :=
  delta.foldl updateParticipant ps

/-- `Except.isOk` as a `Bool` (a settled promise is `fulfilled` or
`rejected`). -/
def fulfilled {ε α : Type} : Except ε α → Bool
  | .ok _ => true
  | .error _ => false

/-- `performBatchUpdates` (the `Promise.allSettled` implementation,
`useChatSync.js` lines 152–205): each delta is applied only if its own fetch
fulfilled with a non-empty list, a rejected fetch feeds `handleSyncError`
(which increments `consecutiveErrors`), and
`setLastUpdateTime(Date.now())` runs only when at least one of the two
fetches fulfilled (which also resets `consecutiveErrors`). -/
def performBatchUpdates (s : SyncState) (now : Nat)
    (mRes : Except String (List MessageUpdate))
    (pRes : Except String (List Participant)) : SyncState :=
  let s1 := match mRes with
    | .ok l =>
      if 0 < l.length then { s with messages := applyMessageDeltas s.messages l }
      else s
    | .error _ => { s with consecutiveErrors := s.consecutiveErrors + 1 }
  let s2 := match pRes with
    | .ok l =>
      if 0 < l.length then
        { s1 with participants := applyParticipantDeltas s1.participants l }
      else s1
    | .error _ => { s1 with consecutiveErrors := s1.consecutiveErrors + 1 }
  if fulfilled mRes || fulfilled pRes then
    { s2 with lastUpdateTime := now, consecutiveErrors := 0 }
  else s2

/-- The legacy `performBatchUpdates` (`Promise.all` with per-fetch
`.catch(() => [])`, `useChatSync.js` lines 475–515): each failed fetch is
converted to an empty delta, and `setLastUpdateTime(Date.now())` runs
unconditionally afterwards. -/
def performBatchUpdatesLegacy (s : SyncState) (now : Nat)
    (mRes : Except String (List MessageUpdate))
    (pRes : Except String (List Participant)) : SyncState :=
  let ml := match mRes with | .ok l => l | .error _ => []
  let pl := match pRes with | .ok l => l | .error _ => []
  let s1 :=
    if 0 < ml.length then { s with messages := applyMessageDeltas s.messages ml }
    else s
  let s2 :=
    if 0 < pl.length then
      { s1 with participants := applyParticipantDeltas s1.participants pl }
    else s1
  { s2 with lastUpdateTime := now }

/-! ### Request queue (`requestQueue.js`)

The queue is embedded as a deterministic simulator of the JS event loop: the
state carries the pending timers (`setTimeout` callbacks with absolute fire
times) and an in-flight operation's completion is itself a timer.  Timers
fire earliest-deadline first, ties broken by registration order, exactly as
in the single-threaded JS task queue.  Each wrapped operation is an
`OpSpec`: per attempt, a duration and an outcome (resolve, reject-with-409,
reject-otherwise). -/

/-- Outcome of one attempt of a wrapped operation. -/
inductive Outcome where
  | ok (v : Nat)
  | conflict
  | fail
deriving Repr, DecidableEq

/-- Behaviour of one queued operation: duration and outcome per attempt. -/
structure OpSpec where
  dur : Nat → Nat
  out : Nat → Outcome

/-- Pending timer callbacks: the completion of the in-flight operation, the
409 retry callback (`unshift` + `processing = false` + `process()`), and the
`finally` block's `setTimeout(() => process(), 100)`. -/
inductive TAct where
  | settleA (i : Nat) (o : Outcome)
  | retryA (i : Nat)
  | processA
deriving Repr, DecidableEq

/-- A registered `setTimeout` callback with its absolute deadline. -/
structure Timer where
  fireAt : Nat
  act : TAct
deriving Repr, DecidableEq

/-- Observable events of a queue run: an operation's wrapped request starts
executing / settles, and the caller's promise resolves or rejects. -/
inductive Event where
  | eStart (i t : Nat)
  | eSettle (i t : Nat)
  | eResolve (i v : Nat)
  | eReject (i : Nat)
deriving Repr, DecidableEq

/-- Simulator state: clock, registered timers, the queue's `queue` and
`processing` fields, per-operation attempt counters, and the event log. -/
structure QState where
  time : Nat
  timers : List Timer
  queue : List Nat
  processing : Bool
  attempts : Nat → Nat
  log : List Event

/-- Pick the timer with the earliest deadline (first-registered on ties),
returning it and the remaining timers in registration order. -/
def extractMin : List Timer → Option (Timer × List Timer)
  | [] => none
  | t :: ts =>
    match extractMin ts with
    | none => some (t, [])
    | some (u, rest) =>
      if t.fireAt ≤ u.fireAt then some (t, ts) else some (u, t :: rest)

/-- `RequestQueue.process()`: a no-op while `processing` is set or the queue
is empty; otherwise shift the first operation, mark the queue busy and start
the operation (its settlement is scheduled `dur` later). -/
def doProcess (ops : Nat → OpSpec) (s : QState) : QState :=
  if s.processing then s
  else
    match s.queue with
    | [] => s
    | i :: q =>
      let a := s.attempts i
      { s with
        queue := q
        processing := true
        attempts := fun j => if j = i then a + 1 else s.attempts j
        timers := s.timers ++ [⟨s.time + (ops i).dur a, .settleA i ((ops i).out a)⟩]
        log := s.log ++ [.eStart i s.time] }

/-- Log entries appended when an operation settles: `resolve(result)` on
success, `reject(error)` on a non-409 error, nothing extra on a 409. -/
def settleEvents (i t : Nat) : Outcome → List Event
  | .ok v => [.eSettle i t, .eResolve i v]
  | .conflict => [.eSettle i t]
  | .fail => [.eSettle i t, .eReject i]

/-- One event-loop step: fire the earliest timer.
* `settleA i o` — the awaited request settles.  On a 409 the catch block
  schedules the retry callback at `t + 1000`; in every case the `finally`
  block clears `processing` and schedules `process()` at `t + 100`.
* `retryA i` — `queue.unshift(op)`, `processing = false`, `process()`.
* `processA` — `process()`. -/
def step (ops : Nat → OpSpec) (s : QState) : QState :=
  match extractMin s.timers with
  | none => s
  | some (tm, rest) =>
    let s' := { s with time := tm.fireAt, timers := rest }
    match tm.act with
    | .settleA i o =>
      let retries : List Timer := match o with
        | .conflict => [⟨tm.fireAt + 1000, .retryA i⟩]
        | _ => []
      { s' with
        log := s'.log ++ settleEvents i tm.fireAt o
        timers := s'.timers ++ retries ++ [⟨tm.fireAt + 100, .processA⟩]
        processing := false }
    | .retryA i =>
      doProcess ops { s' with queue := i :: s'.queue, processing := false }
    | .processA => doProcess ops s'

/-- Run the event loop for a bounded number of steps. -/
def run (ops : Nat → OpSpec) : Nat → QState → QState
  | 0, s => s
  | n + 1, s => run ops n (step ops s)

/-- `requestQueue.add(request)`: push the operation and call `process()`. -/
def addOp (ops : Nat → OpSpec) (s : QState) (i : Nat) : QState :=
  doProcess ops { s with queue := s.queue ++ [i] }

/-- The empty queue at time zero. -/
def initQState : QState :=
  { time := 0, timers := [], queue := [], processing := false,
    attempts := fun _ => 0, log := [] }

/-- Enqueue operations `0, …, n-1` in order, synchronously at time `0`. -/
def addAll (ops : Nat → OpSpec) (n : Nat) : QState :=
  (List.range n).foldl (addOp ops) initQState

/-- Project the start events of a log, in order, to the operation ids. -/
def startsOf (l : List Event) : List Nat :=
  l.filterMap fun e => match e with
    | .eStart i _ => some i
    | _ => none

/-- Project the start events of a log to `(operation id, start time)`. -/
def startTimesOf (l : List Event) : List (Nat × Nat) :=
  l.filterMap fun e => match e with
    | .eStart i t => some (i, t)
    | _ => none

/-- Scan a log with a counter of currently in-flight operations; `true` iff
at some point two wrapped operations execute concurrently. -/
def hasOverlap : List Event → Nat → Bool
  | [], _ => false
  | e :: es, c =>
    match e with
    | .eStart _ _ => if 2 ≤ c + 1 then true else hasOverlap es (c + 1)
    | .eSettle _ _ => hasOverlap es (c - 1)
    | _ => hasOverlap es c

/-- `true` iff no caller's promise was rejected in the log. -/
def noRejects (l : List Event) : Bool :=
  l.all fun e => match e with
    | .eReject _ => false
    | _ => true

/-- The canonical serialized continuation of a run: operation `i` is in
flight and will settle at `tEnd` with outcome `o`; the operations of `l`
then run one after the other, each starting 100 ms (the `finally` timer)
after its predecessor settles. -/
def serial (ops : Nat → OpSpec) : List Nat → Nat × Nat × Outcome → List Event
  | [], (i, tEnd, o) => settleEvents i tEnd o
  | j :: js, (i, tEnd, o) =>
    settleEvents i tEnd o ++
      .eStart j (tEnd + 100) ::
        serial ops js (j, tEnd + 100 + (ops j).dur 0, (ops j).out 0)

/-- Two instantaneous operations: operation `0` rejects with a 409 on its
first attempt and succeeds on retry; operation `1` takes 2000 ms. -/
def ops409 : Nat → OpSpec := fun i =>
  if i = 0 then
    { dur := fun _ => 50, out := fun k => if k = 0 then .conflict else .ok 1 }
  else
    { dur := fun _ => 2000, out := fun _ => .ok 2 }

/-- A single instantaneous operation that rejects with a 409 on its first
`n` attempts and then resolves with `v`. -/
def conflictOps (n v : Nat) : Nat → OpSpec := fun _ =>
  { dur := fun _ => 0, out := fun k => if k < n then .conflict else .ok v }

/-- Canonical tail of a `conflictOps` run from retry cycle `k` on: each
conflicted attempt settles at `1000 * j` and the retry starts at
`1000 * (j + 1)`; the final attempt resolves with `v`. -/
def conflictTail (v n k : Nat) : List Event :=
  ((List.range' k (n - k)).flatMap fun j =>
    [.eSettle 0 (1000 * j), .eStart 0 (1000 * (j + 1))]) ++
    [.eSettle 0 (1000 * n), .eResolve 0 v]

/-! ### Specification predicates and concrete fixtures -/

/-- The grouping-relevant key of a message: author id and timestamp. -/
def gKey (m : GMsg) : Option String × Nat := (gPuuid m, m.createdAt)

/-- The reaction count invariant exactly as the claim states it:
`count == |participants|` and no participant listed twice. -/
abbrev CountInv (s : Store) : Prop :=
  ∀ m ∈ s.messages, ∀ r ∈ m.reactions,
    r.count = (r.participants.length : Int) ∧ r.participants.Nodup

/-- Well-formed reaction list of one message: pairwise-distinct emojis,
`count == |participants|` and duplicate-free participants. -/
abbrev MsgReactionsWF (rs : List Reaction) : Prop :=
  (rs.map (·.emoji)).Nodup ∧
    ∀ r ∈ rs, r.count = (r.participants.length : Int) ∧ r.participants.Nodup

/-- The store-wide reaction invariant. -/
abbrev StoreInv (s : Store) : Prop :=
  ∀ m ∈ s.messages, MsgReactionsWF m.reactions

/-- `revertReaction` can only keep the count invariant when the ledger entry
it undoes still matches the state: its actor is a participant of each
same-emoji reaction on the target message, unless that reaction's count is
about to reach zero anyway. -/
abbrev RevertSafe (s : Store) (key : String) : Prop :=
  ∀ entry, getAssoc s.optimistic key = some entry →
    ∀ m ∈ s.messages, m.uuid = entry.messageId →
      ∀ r ∈ m.reactions, r.emoji = entry.emoji →
        entry.userId ∈ r.participants ∨ r.count ≤ 1

/-- Reaction list well-formed for exact add/revert round-trips: distinct
emojis, consistent counts, no empty (zero-count) reaction entries, and an
`isOwnReaction` flag agreeing with membership of `"you"`. -/
abbrev RevertWF (rs : List Reaction) : Prop :=
  (rs.map (·.emoji)).Nodup ∧
    ∀ r ∈ rs, r.participants ≠ [] ∧ r.count = (r.participants.length : Int) ∧
      r.isOwnReaction = some (r.participants.contains "you")

/-- Store with one message carrying a degenerate zero-count reaction
entry: `add` then `revert` drops the entry instead of restoring it. -/
def c3Store : Store :=
  { messages := [{ uuid := "m1", text := "hi", status := none, createdAt := 0,
                   participant := none,
                   reactions := [{ emoji := "e", count := 0, participants := [],
                                   isOwnReaction := none }] }]
    optimistic := [] }

/-- Store satisfying the count invariant whose ledger holds an `add` entry
by `"carol"`, who is not among the reaction's participants. -/
def c4Store : Store :=
  { messages := [{ uuid := "m1", text := "hi", status := none, createdAt := 0,
                   participant := none,
                   reactions := [{ emoji := "e", count := 2,
                                   participants := ["alice", "bob"],
                                   isOwnReaction := none }] }]
    optimistic := [("k1", { messageId := "m1", emoji := "e", userId := "carol",
                            timestamp := 0, kind := "add_reaction" })] }

/-- Sync state with a recorded cursor, for exercising the legacy batch
update on a double fetch failure. -/
def c5State : SyncState :=
  { messages := [], participants := [], lastUpdateTime := 5,
    consecutiveErrors := 0 }

/-- A server message used in the send/confirm scenario. -/
def srvMsg : Message :=
  { uuid := "srv-1", text := "hello", status := none, createdAt := 150,
    participant := none, reactions := [] }

/-- Well-formed store for the add/revert round-trip witness. -/
def wStore : Store :=
  { messages := [{ uuid := "m1", text := "hi", status := none, createdAt := 0,
                   participant := none,
                   reactions := [{ emoji := "e", count := 1,
                                   participants := ["alice"],
                                   isOwnReaction := some false }] }]
    optimistic := [] }

/-- A concrete day extraction (10 time units per day) for witnesses. -/
def dayOfW : Nat → Nat := fun t => t / 10

/-- Two messages by the same author on different days, for the grouping
witness. -/
def msgsW : List GMsg :=
  [{ uuid := "a", text := "t1", participant := some { uuid := some "u1", name := none },
     createdAt := 0, isGrouped := none, dateSeparator := none },
   { uuid := "b", text := "t2", participant := some { uuid := some "u1", name := none },
     createdAt := 11, isGrouped := none, dateSeparator := none }]

/-- A message and a non-matching update for the frame witness. -/
def mW : Message :=
  { uuid := "m1", text := "hi", status := none, createdAt := 0,
    participant := none, reactions := [] }

/-- Update whose uuid matches `mW`. -/
def uW : MessageUpdate :=
  { uuid := "m1", text := some "edited", status := none, createdAt := none,
    participant := none, reactions := none }

/-- No-conflict operations for the queue serialization witness. -/
def opsW : Nat → OpSpec := fun i =>
  { dur := fun _ => 10, out := fun _ => .ok i }

/-- The store after the witness call `addReactionOptimistic 7 _ "m1" "x" "you"`. -/
def wAfter : Store :=
  { messages := [{ uuid := "m1", text := "hi", status := none, createdAt := 0,
                   participant := none,
                   reactions := [{ emoji := "x", count := 1,
                                   participants := ["you"],
                                   isOwnReaction := some true }] }]
    optimistic := [("m1-x-you-7",
      { messageId := "m1", emoji := "x", userId := "you", timestamp := 7,
        kind := "add_reaction" })] }

/-- The store after the witness call `addReactionOptimistic 5 wStore "m1" "e" "you"`. -/
def wRevertAfter : Store :=
  { messages := [{ uuid := "m1", text := "hi", status := none, createdAt := 0,
                   participant := none,
                   reactions := [{ emoji := "e", count := 2,
                                   participants := ["alice", "you"],
                                   isOwnReaction := some false }] }]
    optimistic := [("m1-e-you-5",
      { messageId := "m1", emoji := "e", userId := "you", timestamp := 5,
        kind := "add_reaction" })] }

/-! ## Theorems -/

/-! ### Grouping -/

theorem flagMsg_participant (dayOf : Nat → Nat) (p : Option GMsg) (c : GMsg) :
    (flagMsg dayOf p c).participant = c.participant := by
  cases p <;> rfl

theorem flagMsg_createdAt (dayOf : Nat → Nat) (p : Option GMsg) (c : GMsg) :
    (flagMsg dayOf p c).createdAt = c.createdAt := by
  cases p <;> rfl

theorem gKey_flagMsg (dayOf : Nat → Nat) (p : Option GMsg) (c : GMsg) :
    gKey (flagMsg dayOf p c) = gKey c := by
  cases p <;> rfl

theorem flagMsg_flagMsg (dayOf : Nat → Nat) (p p' : Option GMsg) (c : GMsg)
    (h : p.map gKey = p'.map gKey) :
    flagMsg dayOf p' (flagMsg dayOf p c) = flagMsg dayOf p c := by
  cases p with
  | none =>
    cases p' with
    | none => cases c; rfl
    | some q => simp at h
  | some q =>
    cases p' with
    | none => simp at h
    | some q' =>
      simp only [Option.map_some', Option.some.injEq] at h
      have h1 : (q'.participant.bind fun x => x.uuid) =
          q.participant.bind fun x => x.uuid := by
        have := congrArg Prod.fst h; simpa [gKey, gPuuid] using this.symm
      have h2 : q'.createdAt = q.createdAt := by
        have := congrArg Prod.snd h; simpa [gKey] using this.symm
      cases c
      simp [flagMsg, gPuuid, h1, h2]

theorem groupGo_idem (dayOf : Nat → Nat) :
    ∀ (msgs : List GMsg) (p p' : Option GMsg), p.map gKey = p'.map gKey →
      groupGo dayOf p' (groupGo dayOf p msgs) = groupGo dayOf p msgs := by
  intro msgs
  induction msgs with
  | nil => intro p p' _; rfl
  | cons m rest ih =>
    intro p p' h
    simp only [groupGo]
    refine congrArg₂ _ (flagMsg_flagMsg dayOf p p' m h) ?_
    exact ih (some m) (some (flagMsg dayOf p m)) (by
      simp [gKey_flagMsg])

/-- C9.  `groupMessages` is idempotent: applying it to its own output
reproduces that output, because the `isGrouped`/`dateSeparator` fields it
adds are recomputed from the untouched `participant`/`createdAt` fields to
the same values. -/
theorem groupMessages_idempotent (dayOf : Nat → Nat) (msgs : List GMsg) :
    groupMessages dayOf (groupMessages dayOf msgs) = groupMessages dayOf msgs :=
  groupGo_idem dayOf msgs none none rfl

theorem groupGo_length (dayOf : Nat → Nat) :
    ∀ (msgs : List GMsg) (p : Option GMsg),
      (groupGo dayOf p msgs).length = msgs.length := by
  intro msgs
  induction msgs with
  | nil => intro p; rfl
  | cons m rest ih => intro p; simp [groupGo, ih (some m)]

theorem groupGo_get?_zero (dayOf : Nat → Nat) (msgs : List GMsg)
    (p : Option GMsg) :
    (groupGo dayOf p msgs).get? 0 = (msgs.get? 0).map (flagMsg dayOf p) := by
  cases msgs <;> rfl

theorem groupGo_get?_succ (dayOf : Nat → Nat) :
    ∀ (msgs : List GMsg) (p : Option GMsg) (i : Nat),
      (groupGo dayOf p msgs).get? (i + 1) =
        (msgs.get? (i + 1)).bind fun c =>
          (msgs.get? i).map fun q => flagMsg dayOf (some q) c := by
  intro msgs
  induction msgs with
  | nil => intro p i; rfl
  | cons m rest ih =>
    intro p i
    cases i with
    | zero =>
      simp only [groupGo, List.get?_cons_succ, List.get?_cons_zero]
      rw [groupGo_get?_zero]
      cases rest.get? 0 <;> rfl
    | succ i =>
      simp only [groupGo, List.get?_cons_succ]
      exact ih (some m) i

/-- C8.  Grouping boundary rule: the output has one element per input
message; the first output message unconditionally carries
`dateSeparator = true` and starts a new group; a later message starts a new
group (its `isGrouped` flag is not `true`) exactly when its author id or
its calendar day differs from the previous message's, and its
`dateSeparator` flag is set exactly when the day differs. -/
theorem groupMessages_boundary (dayOf : Nat → Nat) (msgs : List GMsg) :
    (groupMessages dayOf msgs).length = msgs.length ∧
    (∀ c, msgs.get? 0 = some c →
      ∃ g, (groupMessages dayOf msgs).get? 0 = some g ∧
        g.dateSeparator = some true ∧ g.isGrouped ≠ some true) ∧
    (∀ i p c, msgs.get? i = some p → msgs.get? (i + 1) = some c →
      ∃ g, (groupMessages dayOf msgs).get? (i + 1) = some g ∧
        ((g.isGrouped ≠ some true) ↔
          (gPuuid c ≠ gPuuid p ∨ dayOf c.createdAt ≠ dayOf p.createdAt)) ∧
        g.dateSeparator =
          some (decide (dayOf c.createdAt ≠ dayOf p.createdAt))) := by
  refine ⟨groupGo_length dayOf msgs none, ?_, ?_⟩
  · intro c hc
    refine ⟨flagMsg dayOf none c, ?_, rfl, by simp [flagMsg]⟩
    rw [groupMessages, groupGo_get?_zero, hc]; rfl
  · intro i p c hp hc
    refine ⟨flagMsg dayOf (some p) c, ?_, ?_, ?_⟩
    · rw [groupMessages, groupGo_get?_succ, hc, hp]; rfl
    · simp only [flagMsg]
      constructor
      · intro h
        by_contra hcon
        push_neg at hcon
        apply h
        simp [hcon.1, hcon.2]
      · intro h heq
        simp only [Option.some.injEq, Bool.and_eq_true, decide_eq_true_eq] at heq
        rcases h with h | h
        · exact h heq.1
        · exact h heq.2
    · simp [flagMsg, decide_not]

/-- Witness for C8 at a concrete input: two messages by the same author on
different days; the second starts a new group and carries the date
separator. -/
theorem groupMessages_boundary_witness :
    ∃ g, (groupMessages dayOfW msgsW).get? (0 + 1) = some g ∧
      ((g.isGrouped ≠ some true) ↔
        (gPuuid (msgsW.get ⟨1, by decide⟩) ≠ gPuuid (msgsW.get ⟨0, by decide⟩) ∨
          dayOfW (msgsW.get ⟨1, by decide⟩).createdAt ≠
            dayOfW (msgsW.get ⟨0, by decide⟩).createdAt)) ∧
      g.dateSeparator =
        some (decide (dayOfW (msgsW.get ⟨1, by decide⟩).createdAt ≠
          dayOfW (msgsW.get ⟨0, by decide⟩).createdAt)) :=
  (groupMessages_boundary dayOfW msgsW).2.2 0
    (msgsW.get ⟨0, by decide⟩) (msgsW.get ⟨1, by decide⟩) (by rfl) (by rfl)

/-! ### updateMessage is an update, not an upsert -/

/-- C10.  `updateMessage` never inserts: when the update's uuid matches no
stored message the list is returned unchanged; the length is always
preserved; every stored message with a different uuid is untouched; and a
message with the matching uuid becomes the spread-merge `{ ...m, ...u }`. -/
theorem updateMessage_frame (msgs : List Message) (u : MessageUpdate) :
    ((∀ m ∈ msgs, m.uuid ≠ u.uuid) → updateMessage msgs u = msgs) ∧
    (updateMessage msgs u).length = msgs.length ∧
    (∀ i m, msgs.get? i = some m → m.uuid ≠ u.uuid →
      (updateMessage msgs u).get? i = some m) ∧
    (∀ i m, msgs.get? i = some m → m.uuid = u.uuid → u.uuid ≠ "" →
      (updateMessage msgs u).get? i = some (mergeMessage m u)) := by
  refine ⟨?_, ?_, ?_, ?_⟩
  · intro h
    unfold updateMessage
    split
    · rfl
    · conv_rhs => rw [← List.map_id msgs]
      exact List.map_congr_left fun m hm => by simp [h m hm]
  · unfold updateMessage
    split
    · rfl
    · exact List.length_map _ _
  · intro i m hm hne
    unfold updateMessage
    split
    · exact hm
    · rw [List.get?_map, hm]
      simp [hne]
  · intro i m hm heq hne
    unfold updateMessage
    split
    · next h => exact absurd h hne
    · rw [List.get?_map, hm]
      simp [heq]

/-- Witness for C10: a non-matching update leaves a concrete list unchanged,
and a matching update rewrites exactly the matched element to the merge. -/
theorem updateMessage_frame_witness :
    ((∀ m ∈ [mW], m.uuid ≠ "zz") ∧
      updateMessage [mW] { uW with uuid := "zz" } = [mW]) ∧
    (updateMessage [mW] uW).get? 0 = some (mergeMessage mW uW) :=
  ⟨⟨by decide, (updateMessage_frame [mW] { uW with uuid := "zz" }).1 (by decide)⟩,
    (updateMessage_frame [mW] uW).2.2.2 0 mW (by rfl) (by decide) (by decide)⟩

/-! ### Send/confirm scenario -/

/-- C1 (code divergence).  `handleSend` adds the optimistic placeholder
(uuid `temp-100`, status `sending`), but its success continuation calls
`updateMessage({ ...newMessage, status: 'sent' })`, which is keyed on the
server-assigned uuid `srv-1`.  No stored message carries that uuid, so the
update matches nothing: the list still holds exactly the temporary entry
with status `sending`, and no entry ever becomes `sent`. -/
theorem handleSend_success_leaves_sending :
    handleSendOptimistic [] "hello" 100 = [tempMessage "hello" 100] ∧
    (tempMessage "hello" 100).status = some "sending" ∧
    handleSendSuccess (handleSendOptimistic [] "hello" 100) srvMsg =
      [tempMessage "hello" 100] ∧
    (handleSendSuccess (handleSendOptimistic [] "hello" 100) srvMsg).map
      (fun m => (m.uuid, m.status)) = [("temp-100", some "sending")] := by
  refine ⟨by decide, by decide, by decide, by decide⟩

/-! ### Sync cursor advance -/

/-- C5 (amended).  For the `Promise.allSettled` implementation of
`performBatchUpdates`: when both delta fetches reject, the cursor and both
stores are left unchanged; when at least one fulfils, the cursor advances to
`now`; and each side's delta is applied independently of the other side's
failure.  The legacy `Promise.all`-with-catch implementation instead
advances the cursor unconditionally, even when both fetches reject. -/
theorem performBatchUpdates_cursor :
    (∀ (s : SyncState) (now : Nat) (e1 e2 : String),
      (performBatchUpdates s now (.error e1) (.error e2)).lastUpdateTime =
          s.lastUpdateTime ∧
        (performBatchUpdates s now (.error e1) (.error e2)).messages =
          s.messages ∧
        (performBatchUpdates s now (.error e1) (.error e2)).participants =
          s.participants) ∧
    (∀ (s : SyncState) (now : Nat) (mRes : Except String (List MessageUpdate))
      (pl : List Participant),
      (performBatchUpdates s now mRes (.ok pl)).lastUpdateTime = now) ∧
    (∀ (s : SyncState) (now : Nat) (ml : List MessageUpdate)
      (pRes : Except String (List Participant)),
      (performBatchUpdates s now (.ok ml) pRes).lastUpdateTime = now) ∧
    (∀ (s : SyncState) (now : Nat) (e : String) (pl : List Participant),
      (performBatchUpdates s now (.error e) (.ok pl)).participants =
        applyParticipantDeltas s.participants pl) ∧
    (∀ (s : SyncState) (now : Nat) (ml : List MessageUpdate) (e : String),
      (performBatchUpdates s now (.ok ml) (.error e)).messages =
        applyMessageDeltas s.messages ml) ∧
    (∀ (s : SyncState) (now : Nat) (e1 e2 : String),
      (performBatchUpdatesLegacy s now (.error e1) (.error e2)).lastUpdateTime =
        now) := by
  refine ⟨?_, ?_, ?_, ?_, ?_, ?_⟩
  · intro s now e1 e2
    simp [performBatchUpdates, fulfilled]
  · intro s now mRes pl
    cases mRes <;> simp [performBatchUpdates, fulfilled]
  · intro s now ml pRes
    cases pRes <;> simp [performBatchUpdates, fulfilled]
  · intro s now e pl
    cases pl <;> simp [performBatchUpdates, fulfilled, applyParticipantDeltas]
  · intro s now ml e
    cases ml <;> simp [performBatchUpdates, fulfilled, applyMessageDeltas]
  · intro s now e1 e2
    simp [performBatchUpdatesLegacy]

/-- Counterexample for C5 as stated: in the legacy implementation both
fetches fail, yet the stored cursor changes (from 5 to 99) instead of being
left unchanged. -/
theorem legacy_cursor_advances_on_double_failure :
    (performBatchUpdatesLegacy c5State 99 (.error "a") (.error "b")).lastUpdateTime ≠
      c5State.lastUpdateTime := by
  decide

/-! ### Optimistic reaction lemmas -/

theorem getAssoc_setAssoc {α : Type} :
    ∀ (l : List (String × α)) (k : String) (v : α),
      getAssoc (setAssoc l k v) k = some v := by
  intro l
  induction l with
  | nil => intro k v; simp [setAssoc, getAssoc, List.find?]
  | cons p rest ih =>
    intro k v
    obtain ⟨k', v'⟩ := p
    by_cases h : k' = k
    · simp [setAssoc, h, getAssoc, List.find?]
    · simp only [setAssoc, if_neg h]
      simp only [getAssoc] at ih ⊢
      rw [List.find?_cons_of_neg _ (by simpa using h)]
      exact ih k v

theorem find?_setMsg_self :
    ∀ (msgs : List Message) (mid : String) (msg newMsg : Message),
      msgs.find? (fun m => m.uuid = mid) = some msg → newMsg.uuid = mid →
      (setMsg msgs mid newMsg).find? (fun m => m.uuid = mid) = some newMsg := by
  intro msgs
  induction msgs with
  | nil => intro mid msg newMsg h _; simp at h
  | cons m rest ih =>
    intro mid msg newMsg h hn
    by_cases hm : m.uuid = mid
    · simp [setMsg, hm, List.find?, hn]
    · simp only [setMsg, List.map_cons, if_neg hm]
      rw [List.find?_cons_of_neg _ (by simpa using hm)]
      rw [List.find?_cons_of_neg _ (by simpa using hm)] at h
      exact ih mid msg newMsg h hn

theorem findReaction_incFirst :
    ∀ (rs : List Reaction) (e u : String) (r0 : Reaction),
      findReaction rs e = some r0 →
      findReaction (incFirst rs e u) e =
        some { r0 with count := r0.count + 1,
                       participants := r0.participants ++ [u] } := by
  intro rs
  induction rs with
  | nil => intro e u r0 h; simp [findReaction] at h
  | cons r rest ih =>
    intro e u r0 h
    by_cases he : r.emoji = e
    · rw [findReaction, List.find?_cons_of_pos _ (by simpa using he)] at h
      cases h
      simp [incFirst, he, findReaction, List.find?_cons_of_pos]
    · rw [findReaction, List.find?_cons_of_neg _ (by simpa using he)] at h
      simp only [incFirst, if_neg he]
      rw [findReaction, List.find?_cons_of_neg _ (by simpa using he)]
      exact ih e u r0 h

theorem findReaction_push :
    ∀ (rs : List Reaction) (e : String) (r : Reaction),
      findReaction rs e = none → r.emoji = e →
      findReaction (rs ++ [r]) e = some r := by
  intro rs
  induction rs with
  | nil =>
    intro e r _ hr
    simp [findReaction, List.find?, hr]
  | cons r' rest ih =>
    intro e r h hr
    rw [findReaction, List.find?_eq_none] at h
    have he : ¬ r'.emoji = e := by
      simpa using h r' (List.mem_cons_self r' rest)
    rw [List.cons_append, findReaction,
      List.find?_cons_of_neg _ (by simpa using he)]
    refine ih e r ?_ hr
    rw [findReaction, List.find?_eq_none]
    intro a ha
    simpa using h a (List.mem_cons_of_mem r' ha)

/-- Characterization of a successful `addReactionOptimistic` call. -/
theorem addReaction_success_eq
    (now : Nat) (s : Store) (mid e u k : String) (s' : Store)
    (h : addReactionOptimistic now s mid e u = (some k, s')) :
    ¬(mid = "" ∨ e = "") ∧
    ∃ msg, s.messages.find? (fun m => m.uuid = mid) = some msg ∧
      k = mid ++ "-" ++ e ++ "-" ++ u ++ "-" ++ toString now ∧
      s'.optimistic =
        setAssoc s.optimistic k
          { messageId := mid, emoji := e, userId := u, timestamp := now,
            kind := "add_reaction" } ∧
      ((∃ r0, findReaction msg.reactions e = some r0 ∧
          r0.participants.contains u = false ∧
          s'.messages =
            setMsg s.messages mid
              { msg with reactions := incFirst msg.reactions e u }) ∨
       (findReaction msg.reactions e = none ∧
        s'.messages =
          setMsg s.messages mid
            { msg with reactions := msg.reactions ++
                [{ emoji := e, count := 1, participants := [u],
                   isOwnReaction := some (decide (u = "you")) }] })) := by
  simp only [addReactionOptimistic] at h
  split at h
  · simp at h
  · next hne =>
    refine ⟨hne, ?_⟩
    split at h
    · simp at h
    · next msg hfind =>
      refine ⟨msg, hfind, ?_⟩
      split at h
      · simp at h
      · next hguard =>
        cases hex : findReaction msg.reactions e with
        | none =>
          rw [hex] at h
          injection h with h1 h2
          injection h1 with h1
          subst h1
          subst h2
          exact ⟨rfl, rfl, Or.inr ⟨rfl, rfl⟩⟩
        | some r0 =>
          rw [hex] at h
          rw [hex] at hguard
          injection h with h1 h2
          injection h1 with h1
          subst h1
          subst h2
          exact ⟨rfl, rfl, Or.inl ⟨r0, rfl, by simpa using hguard, rfl⟩⟩

/-- A call whose target message exists but whose actor already appears on
the first reaction carrying the emoji is rejected with the state
untouched. -/
theorem addReaction_rejected (now : Nat) (s : Store) (mid e u : String)
    (msg : Message) (r0 : Reaction)
    (hne : ¬(mid = "" ∨ e = ""))
    (hfind : s.messages.find? (fun m => m.uuid = mid) = some msg)
    (hex : findReaction msg.reactions e = some r0)
    (hc : r0.participants.contains u = true) :
    addReactionOptimistic now s mid e u = (none, s) := by
  simp [addReactionOptimistic, hne, hfind, hex,
    show u ∈ r0.participants by simpa using hc]

/-- C2 (amended).  For the full store: a successful `addReactionOptimistic`
makes the same `(messageId, emoji, actorId)` call return `null` with the
state untouched (whatever timestamp the second call draws), and a call whose
target message does not exist locally returns `null` with the state
untouched.  The minimal `messageStore.js` variant, in contrast, performs no
checks: every call returns a fresh `${messageId}-${emoji}-${Date.now()}`
key (though it never touches any reaction list, so no double increment
occurs there either). -/
theorem addReaction_no_duplicate
    (now now2 : Nat) (s s' : Store) (mid e u k : String)
    (h : addReactionOptimistic now s mid e u = (some k, s')) :
    addReactionOptimistic now2 s' mid e u = (none, s') ∧
    (∀ mid2, (∀ m ∈ s.messages, m.uuid ≠ mid2) →
      addReactionOptimistic now s mid2 e u = (none, s)) ∧
    (∀ (led : List (String × MinEntry)) (mid3 e3 : String) (now3 : Nat),
      (addReactionOptimisticMin now3 led mid3 e3).1 =
        mid3 ++ "-" ++ e3 ++ "-" ++ toString now3) := by
  obtain ⟨hne, msg, hfind, hk, hopt, hbranch⟩ :=
    addReaction_success_eq now s mid e u k s' h
  have hmid : msg.uuid = mid := by
    have := List.find?_some hfind
    simpa using this
  refine ⟨?_, ?_, fun led mid3 e3 now3 => rfl⟩
  · rcases hbranch with ⟨r0, hex, hcon, hmsgs⟩ | ⟨hex, hmsgs⟩
    · refine addReaction_rejected now2 s' mid e u
        { msg with reactions := incFirst msg.reactions e u }
        { r0 with count := r0.count + 1, participants := r0.participants ++ [u] }
        hne ?_ ?_ ?_
      · rw [hmsgs]
        exact find?_setMsg_self s.messages mid msg _ hfind hmid
      · exact findReaction_incFirst msg.reactions e u r0 hex
      · simp
    · refine addReaction_rejected now2 s' mid e u
        { msg with reactions := msg.reactions ++
            [{ emoji := e, count := 1, participants := [u],
               isOwnReaction := some (decide (u = "you")) }] }
        { emoji := e, count := 1, participants := [u],
          isOwnReaction := some (decide (u = "you")) }
        hne ?_ ?_ ?_
      · rw [hmsgs]
        exact find?_setMsg_self s.messages mid msg _ hfind hmid
      · exact findReaction_push msg.reactions e _ hex rfl
      · simp
  · intro mid2 hnone
    by_cases hg : mid2 = "" ∨ e = ""
    · simp [addReactionOptimistic, hg]
    · have hfn : s.messages.find? (fun m => m.uuid = mid2) = none :=
        List.find?_eq_none.mpr fun m hm => by simp [hnone m hm]
      simp [addReactionOptimistic, hg, hfn]

/-- Witness for C2: a concrete successful call whose repetition is rejected
with the state unchanged. -/
theorem addReaction_no_duplicate_witness :
    addReactionOptimistic 7 { messages := [mW], optimistic := [] } "m1" "x" "you" =
      (some "m1-x-you-7", wAfter) ∧
    addReactionOptimistic 9 wAfter "m1" "x" "you" = (none, wAfter) :=
  ⟨by decide,
    (addReaction_no_duplicate 7 9 { messages := [mW], optimistic := [] } wAfter
      "m1" "x" "you" "m1-x-you-7" (by decide)).1⟩

/-- Counterexample for C2 as stated: in the minimal `messageStore.js`
variant a second identical call — with no matching message stored at all —
returns the fresh key `"m1-x-9"` instead of `null`, and the ledger records
both calls. -/
theorem addReactionMin_returns_key :
    (addReactionOptimisticMin 9 (addReactionOptimisticMin 7 [] "m1" "x").2
      "m1" "x").1 = "m1-x-9" ∧
    ((addReactionOptimisticMin 9 (addReactionOptimisticMin 7 [] "m1" "x").2
      "m1" "x").2).length = 2 := by
  decide

/-! ### Revert lemmas -/

theorem revertOne_bump (r0 : Reaction) (u : String)
    (hne : r0.participants ≠ [])
    (hcnt : r0.count = (r0.participants.length : Int))
    (hown : r0.isOwnReaction = some (r0.participants.contains "you"))
    (hu : u ∉ r0.participants) :
    revertOne u { r0 with count := r0.count + 1
                          participants := r0.participants ++ [u] } = some r0 := by
  have hlen : (1 : Int) ≤ (r0.participants.length : Int) := by
    cases hp : r0.participants with
    | nil => exact absurd hp hne
    | cons a l => simp
  have hfil : (r0.participants ++ [u]).filter (fun p => decide (p ≠ u)) =
      r0.participants := by
    rw [List.filter_append]
    rw [List.filter_eq_self.mpr (fun a ha => by
      simp only [decide_eq_true_eq]
      rintro rfl
      exact hu ha)]
    simp
  simp only [revertOne]
  rw [if_neg (by
    show ¬(r0.count + 1 - 1 ≤ 0)
    omega)]
  rw [hfil]
  have h1 : r0.count + 1 - 1 = r0.count := by ring
  simp only [h1, ← hown]

theorem decr_no_match :
    ∀ (rs : List Reaction) (e u : String), (∀ r ∈ rs, r.emoji ≠ e) →
      decrReactions rs e u = rs := by
  intro rs
  induction rs with
  | nil => intro e u _; rfl
  | cons r rest ih =>
    intro e u h
    simp only [decrReactions, List.filterMap_cons,
      if_neg (h r (List.mem_cons_self r rest))]
    exact congrArg _ (ih e u fun a ha => h a (List.mem_cons_of_mem r ha))

theorem findReaction_none_no_match (rs : List Reaction) (e : String)
    (h : findReaction rs e = none) : ∀ r ∈ rs, r.emoji ≠ e := by
  rw [findReaction, List.find?_eq_none] at h
  intro r hr
  simpa using h r hr

theorem decr_push_restore (rs : List Reaction) (e u : String)
    (w : Option Bool) (h : findReaction rs e = none) :
    decrReactions
      (rs ++ [{ emoji := e, count := 1, participants := [u],
                isOwnReaction := w }]) e u = rs := by
  have hnm := findReaction_none_no_match rs e h
  rw [decrReactions, List.filterMap_append]
  rw [show (List.filterMap
      (fun r => if r.emoji = e then revertOne u r else some r)
      [{ emoji := e, count := 1, participants := [u], isOwnReaction := w }]) =
      ([] : List Reaction) by simp [List.filterMap_cons, revertOne]]
  rw [List.append_nil]
  exact decr_no_match rs e u hnm

theorem decr_incFirst_restore :
    ∀ (rs : List Reaction) (e u : String) (r0 : Reaction),
      findReaction rs e = some r0 → r0.participants.contains u = false →
      (rs.map (·.emoji)).Nodup →
      (∀ r ∈ rs, r.participants ≠ [] ∧ r.count = (r.participants.length : Int) ∧
        r.isOwnReaction = some (r.participants.contains "you")) →
      decrReactions (incFirst rs e u) e u = rs := by
  intro rs
  induction rs with
  | nil => intro e u r0 h _ _ _; simp [findReaction] at h
  | cons r rest ih =>
    intro e u r0 hf hc hnd hwf
    rw [List.map_cons, List.nodup_cons] at hnd
    by_cases he : r.emoji = e
    · rw [findReaction, List.find?_cons_of_pos _ (by simpa using he)] at hf
      injection hf with hf0
      subst hf0
      have hu : u ∉ r.participants := by simpa using hc
      obtain ⟨hne, hcnt, hown⟩ := hwf r (List.mem_cons_self r rest)
      have hrest : ∀ a ∈ rest, a.emoji ≠ e := by
        intro a ha hae
        apply hnd.1
        rw [he, ← hae]
        exact List.mem_map_of_mem _ ha
      simp only [incFirst, if_pos he, decrReactions, List.filterMap_cons,
        if_pos he]
      rw [revertOne_bump r u hne hcnt hown hu]
      rw [show (List.filterMap
        (fun a => if a.emoji = e then revertOne u a else some a) rest) =
          decrReactions rest e u from rfl]
      rw [decr_no_match rest e u hrest]
    · rw [findReaction, List.find?_cons_of_neg _ (by simpa using he)] at hf
      simp only [incFirst, if_neg he, decrReactions, List.filterMap_cons,
        if_neg he]
      rw [show (List.filterMap
        (fun a => if a.emoji = e then revertOne u a else some a)
          (incFirst rest e u)) = decrReactions (incFirst rest e u) e u from rfl]
      rw [ih e u r0 hf hc hnd.2
        (fun a ha => hwf a (List.mem_cons_of_mem r ha))]

theorem setMsg_setMsg (l : List Message) (mid : String) (a b : Message)
    (ha : a.uuid = mid) :
    setMsg (setMsg l mid a) mid b = setMsg l mid b := by
  simp only [setMsg, List.map_map]
  apply List.map_congr_left
  intro m _
  by_cases hm : m.uuid = mid
  · simp [Function.comp, hm, ha]
  · simp [Function.comp, hm]

theorem setMsg_no_match (l : List Message) (mid : String) (b : Message)
    (h : ∀ m ∈ l, m.uuid ≠ mid) : setMsg l mid b = l := by
  unfold setMsg
  conv_rhs => rw [← List.map_id l]
  exact List.map_congr_left fun m hm => by simp [h m hm]

theorem setMsg_self :
    ∀ (l : List Message) (mid : String) (msg : Message),
      (l.map (·.uuid)).Nodup → l.find? (fun m => m.uuid = mid) = some msg →
      setMsg l mid msg = l := by
  intro l
  induction l with
  | nil => intro mid msg _ h; simp at h
  | cons m rest ih =>
    intro mid msg hnd hf
    rw [List.map_cons, List.nodup_cons] at hnd
    by_cases hm : m.uuid = mid
    · rw [List.find?_cons_of_pos _ (by simpa using hm)] at hf
      injection hf with hf0
      subst hf0
      simp only [setMsg, List.map_cons, if_pos hm]
      refine congrArg _ ?_
      exact setMsg_no_match rest mid m fun m' hm' hc => hnd.1 (by
        rw [show m.uuid = m'.uuid by rw [hm, hc]]
        exact List.mem_map_of_mem _ hm')
    · rw [List.find?_cons_of_neg _ (by simpa using hm)] at hf
      simp only [setMsg, List.map_cons, if_neg hm]
      refine congrArg _ ?_
      exact ih mid msg hnd.2 hf

theorem append_ne_empty_left (a b : String) (h : a ≠ "") : a ++ b ≠ "" := by
  intro hc
  apply h
  have hd := congrArg String.data hc
  rw [String.data_append] at hd
  have h0 := (List.append_eq_nil.mp hd).1
  cases a
  simpa [String.ext_iff] using h0

/-- C3 (amended).  `addReactionOptimistic` immediately followed by
`revertReaction` of the returned token restores the message list exactly —
including when the emoji already had other reactors — provided the target
message's stored uuid is unique and its reactions are well-formed
(`RevertWF`): pairwise-distinct emojis, `count = |participants|` with at
least one participant, and an `isOwnReaction` flag consistent with
membership of `"you"`.  Without those conditions the round-trip can lose a
zero-count entry or rewrite `isOwnReaction` (see the counterexample). -/
theorem add_revert_roundtrip (now : Nat) (s s' : Store) (mid e u k : String)
    (h : addReactionOptimistic now s mid e u = (some k, s'))
    (hnodup : (s.messages.map (·.uuid)).Nodup)
    (hwf : ∀ m ∈ s.messages, m.uuid = mid → RevertWF m.reactions) :
    (revertReaction s' k).messages = s.messages := by
  obtain ⟨hne, msg, hfind, hk, hopt, hbranch⟩ :=
    addReaction_success_eq now s mid e u k s' h
  have hmid : msg.uuid = mid := by
    have := List.find?_some hfind
    simpa using this
  have hmem : msg ∈ s.messages := List.mem_of_find?_eq_some hfind
  obtain ⟨hemo, hper⟩ := hwf msg hmem hmid
  have hk0 : k ≠ "" := by
    rw [hk]
    intro hc
    have hlen := congrArg String.length hc
    simp only [String.length_append] at hlen
    have hdash : ("-" : String).length = 1 := rfl
    have hempty : ("" : String).length = 0 := rfl
    rw [hempty] at hlen
    simp only [hdash] at hlen
    omega
  have hget : getAssoc s'.optimistic k =
      some { messageId := mid, emoji := e, userId := u, timestamp := now,
             kind := "add_reaction" } := by
    rw [hopt]; exact getAssoc_setAssoc _ _ _
  rcases hbranch with ⟨r0, hex, hcon, hmsgs⟩ | ⟨hex, hmsgs⟩
  · have hfind2 : s'.messages.find? (fun m => m.uuid = mid) =
        some { msg with reactions := incFirst msg.reactions e u } := by
      rw [hmsgs]
      exact find?_setMsg_self s.messages mid msg _ hfind hmid
    have hdecr : decrReactions (incFirst msg.reactions e u) e u =
        msg.reactions :=
      decr_incFirst_restore msg.reactions e u r0 hex hcon hemo
        fun a ha => hper a ha
    simp only [revertReaction, if_neg hk0, hget, hfind2, hdecr]
    rw [hmsgs]
    rw [setMsg_setMsg s.messages mid
      { msg with reactions := incFirst msg.reactions e u } _ hmid]
    exact setMsg_self s.messages mid msg hnodup hfind
  · have hfind2 : s'.messages.find? (fun m => m.uuid = mid) =
        some { msg with reactions := msg.reactions ++
          [{ emoji := e, count := 1, participants := [u],
             isOwnReaction := some (decide (u = "you")) }] } := by
      rw [hmsgs]
      exact find?_setMsg_self s.messages mid msg _ hfind hmid
    have hdecr : decrReactions (msg.reactions ++
        [{ emoji := e, count := 1, participants := [u],
           isOwnReaction := some (decide (u = "you")) }]) e u =
        msg.reactions := decr_push_restore msg.reactions e u _ hex
    simp only [revertReaction, if_neg hk0, hget, hfind2, hdecr]
    rw [hmsgs]
    rw [setMsg_setMsg s.messages mid
      { msg with reactions := msg.reactions ++
          [{ emoji := e, count := 1, participants := [u],
             isOwnReaction := some (decide (u = "you")) }] } _ hmid]
    exact setMsg_self s.messages mid msg hnodup hfind

/-- Counterexample for C3 as stated ("for every message store state"): on a
message holding a degenerate zero-count reaction entry, `add` succeeds (no
participant matches) and the immediate `revert` then drops the entry
entirely, so the reaction list is not restored. -/
theorem add_revert_not_inverse :
    (addReactionOptimistic 5 c3Store "m1" "e" "alice").1 = some "m1-e-alice-5" ∧
    (revertReaction (addReactionOptimistic 5 c3Store "m1" "e" "alice").2
      "m1-e-alice-5").messages ≠ c3Store.messages := by
  decide

/-- Witness for C3 on a well-formed store: the reaction already has another
reactor, and the add/revert round-trip restores the message list. -/
theorem add_revert_roundtrip_witness :
    addReactionOptimistic 5 wStore "m1" "e" "you" =
      (some "m1-e-you-5", wRevertAfter) ∧
    (revertReaction wRevertAfter "m1-e-you-5").messages = wStore.messages := by
  constructor
  · decide
  refine add_revert_roundtrip 5 wStore wRevertAfter "m1" "e" "you" "m1-e-you-5"
    (by decide) (by decide) ?_
  intro m hm hmid
  simp only [wStore] at hm
  rw [List.mem_singleton] at hm
  subst hm
  exact ⟨by decide, by decide⟩

/-! ### Reaction count invariant -/

theorem length_filter_ne {α : Type} [DecidableEq α] :
    ∀ (l : List α) (a : α), l.Nodup → a ∈ l →
      (l.filter fun x => decide (x ≠ a)).length + 1 = l.length := by
  intro l
  induction l with
  | nil => intro a _ h; cases h
  | cons b rest ih =>
    intro a hnd hmem
    by_cases hba : b = a
    · subst hba
      have heq : rest.filter (fun x => decide (x ≠ b)) = rest :=
        List.filter_eq_self.mpr fun x hx => by
          simp only [decide_eq_true_eq]
          rintro rfl
          exact (List.nodup_cons.mp hnd).1 hx
      rw [List.filter_cons, if_neg (by simp), heq]
      rfl
    · have hmem2 : a ∈ rest := by
        cases hmem with
        | head => exact absurd rfl hba
        | tail _ hmem2 => exact hmem2
      simp only [List.filter_cons]
      rw [if_pos (by simpa using hba)]
      simp only [List.length_cons]
      rw [ih a (List.nodup_cons.mp hnd).2 hmem2]

theorem incFirst_map_emoji :
    ∀ (rs : List Reaction) (e u : String),
      (incFirst rs e u).map (·.emoji) = rs.map (·.emoji) := by
  intro rs
  induction rs with
  | nil => intro e u; rfl
  | cons r rest ih =>
    intro e u
    by_cases he : r.emoji = e
    · simp [incFirst, he]
    · simp only [incFirst, if_neg he, List.map_cons]
      rw [ih e u]

theorem wf_incFirst :
    ∀ (rs : List Reaction) (e u : String) (r0 : Reaction),
      findReaction rs e = some r0 → r0.participants.contains u = false →
      (∀ r ∈ rs, r.count = (r.participants.length : Int) ∧ r.participants.Nodup) →
      ∀ r' ∈ incFirst rs e u,
        r'.count = (r'.participants.length : Int) ∧ r'.participants.Nodup := by
  intro rs
  induction rs with
  | nil => intro e u r0 h _ _; simp [findReaction] at h
  | cons r rest ih =>
    intro e u r0 hf hc hwf r' hr'
    by_cases he : r.emoji = e
    · rw [findReaction, List.find?_cons_of_pos _ (by simpa using he)] at hf
      injection hf with hf0
      subst hf0
      rw [incFirst, if_pos he] at hr'
      rcases List.mem_cons.mp hr' with rfl | hr2
      · obtain ⟨hcnt, hnd⟩ := hwf r (List.mem_cons_self r rest)
        have hu : u ∉ r.participants := by simpa using hc
        constructor
        · simp only [List.length_append, List.length_cons, List.length_nil]
          omega
        · refine List.Nodup.append hnd (List.nodup_singleton u) ?_
          intro x hx hxm
          rw [List.mem_singleton] at hxm
          subst hxm
          exact hu hx
      · exact hwf r' (List.mem_cons_of_mem r hr2)
    · rw [findReaction, List.find?_cons_of_neg _ (by simpa using he)] at hf
      rw [incFirst, if_neg he] at hr'
      rcases List.mem_cons.mp hr' with rfl | hr2
      · exact hwf r' (List.mem_cons_self r' rest)
      · exact ih e u r0 hf hc
          (fun a ha => hwf a (List.mem_cons_of_mem r ha)) r' hr2

theorem matching_unique :
    ∀ (rs : List Reaction) (e : String) (r0 : Reaction),
      (rs.map (·.emoji)).Nodup → findReaction rs e = some r0 →
      ∀ r ∈ rs, r.emoji = e → r = r0 := by
  intro rs
  induction rs with
  | nil => intro e r0 _ h; simp [findReaction] at h
  | cons r rest ih =>
    intro e r0 hnd hf a ha hae
    rw [List.map_cons, List.nodup_cons] at hnd
    by_cases he : r.emoji = e
    · rw [findReaction, List.find?_cons_of_pos _ (by simpa using he)] at hf
      injection hf with hf0
      subst hf0
      cases ha with
      | head => rfl
      | tail _ ha2 =>
        exact absurd (by rw [he, ← hae]; exact List.mem_map_of_mem _ ha2) hnd.1
    · rw [findReaction, List.find?_cons_of_neg _ (by simpa using he)] at hf
      cases ha with
      | head => exact absurd hae he
      | tail _ ha2 => exact ih e r0 hnd.2 hf a ha2 hae

theorem revertOne_emoji (u : String) (r r' : Reaction)
    (h : revertOne u r = some r') : r'.emoji = r.emoji := by
  simp only [revertOne] at h
  split at h
  · simp at h
  · injection h with h0
    subst h0
    rfl

theorem decr_emoji_sublist :
    ∀ (rs : List Reaction) (e u : String),
      ((decrReactions rs e u).map (·.emoji)).Sublist (rs.map (·.emoji)) := by
  intro rs
  induction rs with
  | nil => intro e u; simp [decrReactions]
  | cons r rest ih =>
    intro e u
    simp only [decrReactions, List.filterMap_cons, List.map_cons]
    by_cases he : r.emoji = e
    · rw [if_pos he]
      cases hro : revertOne u r with
      | none => exact (ih e u).cons _
      | some r' =>
        simp only [List.map_cons]
        rw [revertOne_emoji u r r' hro]
        exact (ih e u).cons₂ _
    · rw [if_neg he]
      simp only [List.map_cons]
      exact (ih e u).cons₂ _

theorem wf_decr (rs : List Reaction) (e u : String)
    (hwf : ∀ r ∈ rs, r.count = (r.participants.length : Int) ∧ r.participants.Nodup)
    (hcond : ∀ r ∈ rs, r.emoji = e → u ∈ r.participants ∨ r.count ≤ 1) :
    ∀ r' ∈ decrReactions rs e u,
      r'.count = (r'.participants.length : Int) ∧ r'.participants.Nodup := by
  intro r' hr'
  rw [decrReactions, List.mem_filterMap] at hr'
  obtain ⟨r, hr, hro⟩ := hr'
  by_cases he : r.emoji = e
  · rw [if_pos he] at hro
    simp only [revertOne] at hro
    split at hro
    · simp at hro
    · next hpos =>
      injection hro with hro0
      subst hro0
      obtain ⟨hcnt, hnd⟩ := hwf r hr
      have hu : u ∈ r.participants := by
        rcases hcond r hr he with hu | hle
        · exact hu
        · exact absurd (by omega : r.count - 1 ≤ 0) hpos
      have hfl := length_filter_ne r.participants u hnd hu
      refine ⟨?_, List.Nodup.filter _ hnd⟩
      simp only
      omega
  · rw [if_neg he] at hro
    injection hro with hro0
    subst hro0
    exact hwf r hr

theorem mem_setMsg (l : List Message) (mid : String) (b m' : Message)
    (h : m' ∈ setMsg l mid b) : m' = b ∨ m' ∈ l := by
  rw [setMsg, List.mem_map] at h
  obtain ⟨m, hm, hif⟩ := h
  by_cases hmid : m.uuid = mid
  · rw [if_pos hmid] at hif
    exact Or.inl hif.symm
  · rw [if_neg hmid] at hif
    exact Or.inr (hif ▸ hm)

theorem addReaction_none_frame (now : Nat) (s : Store) (mid e u : String)
    (h : (addReactionOptimistic now s mid e u).1 = none) :
    (addReactionOptimistic now s mid e u).2 = s := by
  by_cases hg : mid = "" ∨ e = ""
  · simp [addReactionOptimistic, hg]
  · cases hfind : s.messages.find? fun m => m.uuid = mid with
    | none => simp [addReactionOptimistic, hg, hfind]
    | some msg =>
      cases hex : findReaction msg.reactions e with
      | none => simp [addReactionOptimistic, hg, hfind, hex] at h
      | some r0 =>
        by_cases hc : r0.participants.contains u
        · simp [addReactionOptimistic, hg, hfind, hex,
            show u ∈ r0.participants by simpa using hc]
        · simp [addReactionOptimistic, hg, hfind, hex,
            show u ∉ r0.participants by simpa using hc] at h

theorem confirmReaction_messages (s : Store) (key : String) :
    (confirmReaction s key).messages = s.messages := by
  unfold confirmReaction
  split
  · rfl
  · split <;> rfl

theorem removeReaction_state_cases (now : Nat) (s : Store) (mid e u : String) :
    (removeReactionOptimistic now s mid e u).2.messages = s.messages ∨
    ∃ msg r0, s.messages.find? (fun m => m.uuid = mid) = some msg ∧
      findReaction msg.reactions e = some r0 ∧
      r0.participants.contains u = true ∧
      (removeReactionOptimistic now s mid e u).2.messages =
        setMsg s.messages mid
          { msg with reactions := decrReactions msg.reactions e u } := by
  by_cases hg : mid = "" ∨ e = ""
  · left; simp [removeReactionOptimistic, hg]
  · cases hfind : s.messages.find? fun m => m.uuid = mid with
    | none => left; simp [removeReactionOptimistic, hg, hfind]
    | some msg =>
      cases hex : findReaction msg.reactions e with
      | none => left; simp [removeReactionOptimistic, hg, hfind, hex]
      | some r0 =>
        by_cases hc : r0.participants.contains u
        · right
          refine ⟨msg, r0, rfl, hex, hc, ?_⟩
          simp [removeReactionOptimistic, hg, hfind, hex,
            show u ∈ r0.participants by simpa using hc]
        · left
          simp [removeReactionOptimistic, hg, hfind, hex,
            show u ∉ r0.participants by simpa using hc]

theorem revertReaction_state_cases (s : Store) (key : String) :
    (revertReaction s key).messages = s.messages ∨
    ∃ entry msg, getAssoc s.optimistic key = some entry ∧
      s.messages.find? (fun m => m.uuid = entry.messageId) = some msg ∧
      (revertReaction s key).messages =
        setMsg s.messages entry.messageId
          { msg with reactions :=
              decrReactions msg.reactions entry.emoji entry.userId } := by
  by_cases hk : key = ""
  · left; simp [revertReaction, hk]
  · cases hget : getAssoc s.optimistic key with
    | none => left; simp [revertReaction, hk, hget]
    | some entry =>
      cases hfind : s.messages.find? fun m => m.uuid = entry.messageId with
      | none => left; simp [revertReaction, hk, hget, hfind]
      | some msg =>
        right
        refine ⟨entry, msg, rfl, hfind, ?_⟩
        simp [revertReaction, hk, hget, hfind]

/-- C4 (amended).  Starting from a store whose every message has
pairwise-distinct reaction emojis, `count = |participants|` and
duplicate-free participants, the invariant is preserved by
`addReactionOptimistic`, `confirmReaction` and `removeReactionOptimistic`
with any arguments; `revertReaction` preserves it provided the reverted
ledger entry is consistent with the state (`RevertSafe`): its actor is a
participant of each same-emoji reaction of the target message unless that
reaction's count is at most 1.  Without emoji uniqueness or entry
consistency the count invariant can break (see the counterexample). -/
theorem reaction_invariant_preserved (s : Store) (h : StoreInv s) :
    (∀ now mid e u, StoreInv (addReactionOptimistic now s mid e u).2) ∧
    (∀ key, StoreInv (confirmReaction s key)) ∧
    (∀ now mid e u, StoreInv (removeReactionOptimistic now s mid e u).2) ∧
    (∀ key, RevertSafe s key → StoreInv (revertReaction s key)) := by
  refine ⟨?_, ?_, ?_, ?_⟩
  · intro now mid e u
    cases hro : (addReactionOptimistic now s mid e u).1 with
    | none =>
      rw [addReaction_none_frame now s mid e u hro]
      exact h
    | some k =>
      have hp : addReactionOptimistic now s mid e u =
          (some k, (addReactionOptimistic now s mid e u).2) := by
        rw [← hro]
      obtain ⟨hne, msg, hfind, hk, hopt, hbranch⟩ :=
        addReaction_success_eq now s mid e u k _ hp
      have hmem : msg ∈ s.messages := List.mem_of_find?_eq_some hfind
      obtain ⟨hemo, hwfm⟩ := h msg hmem
      intro m' hm'
      rcases hbranch with ⟨r0, hex, hcon, hmsgs⟩ | ⟨hex, hmsgs⟩
      · rw [hmsgs] at hm'
        rcases mem_setMsg _ _ _ _ hm' with rfl | hm2
        · refine ⟨?_, ?_⟩
          · simpa [incFirst_map_emoji] using hemo
          · exact wf_incFirst msg.reactions e u r0 hex hcon hwfm
        · exact h m' hm2
      · rw [hmsgs] at hm'
        rcases mem_setMsg _ _ _ _ hm' with rfl | hm2
        · refine ⟨?_, ?_⟩
          · simp only [List.map_append, List.map_cons, List.map_nil]
            rw [List.nodup_append]
            refine ⟨hemo, List.nodup_singleton _, ?_⟩
            intro x hx
            simp only [List.mem_singleton]
            intro hxe
            have hnm := findReaction_none_no_match msg.reactions e hex
            rw [hxe] at hx
            obtain ⟨rr, hrr, hrre⟩ := List.mem_map.mp hx
            exact hnm rr hrr hrre
          · intro r' hr'
            rcases List.mem_append.mp hr' with hr2 | hr2
            · exact hwfm r' hr2
            · rw [List.mem_singleton] at hr2
              subst hr2
              exact ⟨by simp, List.nodup_singleton u⟩
        · exact h m' hm2
  · intro key
    intro m' hm'
    rw [confirmReaction_messages] at hm'
    exact h m' hm'
  · intro now mid e u
    rcases removeReaction_state_cases now s mid e u with heq | ⟨msg, r0, hfind, hex, hc, heq⟩
    · intro m' hm'
      rw [heq] at hm'
      exact h m' hm'
    · intro m' hm'
      rw [heq] at hm'
      have hmem : msg ∈ s.messages := List.mem_of_find?_eq_some hfind
      obtain ⟨hemo, hwfm⟩ := h msg hmem
      rcases mem_setMsg _ _ _ _ hm' with rfl | hm2
      · refine ⟨?_, ?_⟩
        · exact List.Nodup.sublist (decr_emoji_sublist msg.reactions e u) hemo
        · refine wf_decr msg.reactions e u hwfm ?_
          intro r hr hre
          left
          have := matching_unique msg.reactions e r0 hemo hex r hr hre
          subst this
          simpa using hc
      · exact h m' hm2
  · intro key hsafe
    rcases revertReaction_state_cases s key with heq | ⟨entry, msg, hget, hfind, heq⟩
    · intro m' hm'
      rw [heq] at hm'
      exact h m' hm'
    · intro m' hm'
      rw [heq] at hm'
      have hmem : msg ∈ s.messages := List.mem_of_find?_eq_some hfind
      have hmid : msg.uuid = entry.messageId := by
        have := List.find?_some hfind
        simpa using this
      obtain ⟨hemo, hwfm⟩ := h msg hmem
      rcases mem_setMsg _ _ _ _ hm' with rfl | hm2
      · refine ⟨?_, ?_⟩
        · exact List.Nodup.sublist
            (decr_emoji_sublist msg.reactions entry.emoji entry.userId) hemo
        · refine wf_decr msg.reactions entry.emoji entry.userId hwfm ?_
          intro r hr hre
          exact hsafe entry hget msg hmem hmid r hr hre
      · exact h m' hm2

/-- Counterexample for C4 as stated: the store satisfies the claim's count
invariant (`count = |participants|`, duplicate-free participants), but the
ledger holds an add-entry by `"carol"`, who is not among the reaction's
participants; `revertReaction` decrements the count without removing
anyone, leaving `count = 1` with two participants. -/
theorem revert_breaks_count_invariant :
    CountInv c4Store ∧ ¬ CountInv (revertReaction c4Store "k1") := by
  decide

/-- Witness for C4: on a concrete well-formed store the invariant survives
an `addReactionOptimistic` call. -/
theorem reaction_invariant_preserved_witness :
    StoreInv wStore ∧ StoreInv (addReactionOptimistic 5 wStore "m1" "e" "you").2 :=
  ⟨by decide, (reaction_invariant_preserved wStore (by decide)).1 5 "m1" "e" "you"⟩

/-! ### Request queue: serialization -/

theorem run_two (ops : Nat → OpSpec) (n : Nat) (s : QState) :
    run ops (n + 2) s = run ops n (step ops (step ops s)) := rfl

theorem run_three (ops : Nat → OpSpec) (n : Nat) (s : QState) :
    run ops (n + 3) s = run ops n (step ops (step ops (step ops s))) := rfl

theorem extractMin_two (t1 t2 : Timer) (h : ¬ t1.fireAt ≤ t2.fireAt) :
    extractMin [t1, t2] = some (t2, [t1]) := by
  simp [extractMin, h]

theorem addAll_succ (ops : Nat → OpSpec) :
    ∀ n : Nat, addAll ops (n + 1) =
      ⟨0, [⟨(ops 0).dur 0, .settleA 0 ((ops 0).out 0)⟩], List.range' 1 n, true,
        fun j => if j = 0 then 1 else 0, [.eStart 0 0]⟩ := by
  intro n
  induction n with
  | zero =>
    show addOp ops initQState 0 = _
    simp [addOp, doProcess, initQState]
  | succ n ihn =>
    have hfold : addAll ops (n + 1 + 1) = addOp ops (addAll ops (n + 1)) (n + 1) := by
      unfold addAll
      rw [List.range_succ, List.foldl_append]
      rfl
    rw [hfold, ihn]
    show (⟨0, [⟨(ops 0).dur 0, .settleA 0 ((ops 0).out 0)⟩],
      List.range' 1 n ++ [n + 1], true, fun j => if j = 0 then 1 else 0,
      [.eStart 0 0]⟩ : QState) = _
    have hr : List.range' 1 (n + 1) = List.range' 1 n ++ [n + 1] := by
      have := @List.range'_concat 1 1 n
      simpa [Nat.add_comm] using this
    rw [hr]

theorem run_serial (ops : Nat → OpSpec) :
    ∀ (l : List Nat) (i tEnd t0 : Nat) (o : Outcome) (A : Nat → Nat)
      (L : List Event),
      o ≠ .conflict → (∀ j ∈ l, A j = 0) →
      (∀ j ∈ l, (ops j).out 0 ≠ .conflict) → l.Nodup →
      ∃ tf Af, run ops (2 * l.length + 2)
          ⟨t0, [⟨tEnd, .settleA i o⟩], l, true, A, L⟩ =
        ⟨tf, [], [], false, Af, L ++ serial ops l (i, tEnd, o)⟩ := by
  intro l
  induction l with
  | nil =>
    intro i tEnd t0 o A L ho _ _ _
    refine ⟨tEnd + 100, A, ?_⟩
    cases o with
    | conflict => exact absurd rfl ho
    | ok v => rfl
    | fail => rfl
  | cons j js ih =>
    intro i tEnd t0 o A L ho hA hout hnd
    have hAj : A j = 0 := hA j (List.mem_cons_self j js)
    have hfuel : 2 * (j :: js).length + 2 = 2 * js.length + 2 + 2 := by
      simp [List.length_cons]
      ring
    rw [hfuel, run_two]
    cases o with
    | conflict => exact absurd rfl ho
    | ok v =>
      have hstep : step ops (step ops
          (⟨t0, [⟨tEnd, .settleA i (.ok v)⟩], j :: js, true, A, L⟩ : QState)) =
          ⟨tEnd + 100,
            [⟨tEnd + 100 + (ops j).dur (A j), .settleA j ((ops j).out (A j))⟩],
            js, true, fun j' => if j' = j then A j + 1 else A j',
            (L ++ settleEvents i tEnd (.ok v)) ++ [.eStart j (tEnd + 100)]⟩ := rfl
      rw [hstep, hAj]
      obtain ⟨tf, Af, hrun⟩ := ih j (tEnd + 100 + (ops j).dur 0) (tEnd + 100)
        ((ops j).out 0) (fun j' => if j' = j then 0 + 1 else A j')
        ((L ++ settleEvents i tEnd (.ok v)) ++ [.eStart j (tEnd + 100)])
        (hout j (List.mem_cons_self j js))
        (fun k hk => by
          have hkj : k ≠ j := by
            intro hc
            subst hc
            exact (List.nodup_cons.mp hnd).1 hk
          simp [hkj, hA k (List.mem_cons_of_mem j hk)])
        (fun k hk => hout k (List.mem_cons_of_mem j hk))
        (List.nodup_cons.mp hnd).2
      refine ⟨tf, Af, ?_⟩
      rw [hrun]
      simp [serial, List.append_assoc]
    | fail =>
      have hstep : step ops (step ops
          (⟨t0, [⟨tEnd, .settleA i .fail⟩], j :: js, true, A, L⟩ : QState)) =
          ⟨tEnd + 100,
            [⟨tEnd + 100 + (ops j).dur (A j), .settleA j ((ops j).out (A j))⟩],
            js, true, fun j' => if j' = j then A j + 1 else A j',
            (L ++ settleEvents i tEnd .fail) ++ [.eStart j (tEnd + 100)]⟩ := rfl
      rw [hstep, hAj]
      obtain ⟨tf, Af, hrun⟩ := ih j (tEnd + 100 + (ops j).dur 0) (tEnd + 100)
        ((ops j).out 0) (fun j' => if j' = j then 0 + 1 else A j')
        ((L ++ settleEvents i tEnd .fail) ++ [.eStart j (tEnd + 100)])
        (hout j (List.mem_cons_self j js))
        (fun k hk => by
          have hkj : k ≠ j := by
            intro hc
            subst hc
            exact (List.nodup_cons.mp hnd).1 hk
          simp [hkj, hA k (List.mem_cons_of_mem j hk)])
        (fun k hk => hout k (List.mem_cons_of_mem j hk))
        (List.nodup_cons.mp hnd).2
      refine ⟨tf, Af, ?_⟩
      rw [hrun]
      simp [serial, List.append_assoc]

theorem startsOf_settleEvents (i t : Nat) (o : Outcome) :
    startsOf (settleEvents i t o) = [] := by
  cases o <;> rfl

theorem startsOf_append (l1 l2 : List Event) :
    startsOf (l1 ++ l2) = startsOf l1 ++ startsOf l2 :=
  List.filterMap_append l1 l2 _

theorem startsOf_serial (ops : Nat → OpSpec) :
    ∀ (l : List Nat) (i t : Nat) (o : Outcome),
      startsOf (serial ops l (i, t, o)) = l := by
  intro l
  induction l with
  | nil => intro i t o; simp [serial, startsOf_settleEvents]
  | cons j js ih =>
    intro i t o
    rw [serial, startsOf_append, startsOf_settleEvents]
    show [] ++ (startsOf (.eStart j (t + 100) ::
      serial ops js (j, t + 100 + (ops j).dur 0, (ops j).out 0))) = j :: js
    rw [List.nil_append, startsOf, List.filterMap_cons]
    show j :: startsOf (serial ops js (j, t + 100 + (ops j).dur 0, (ops j).out 0)) = j :: js
    rw [ih]

theorem hasOverlap_settleEvents (i t : Nat) (o : Outcome) (rest : List Event)
    (c : Nat) :
    hasOverlap (settleEvents i t o ++ rest) (c + 1) = hasOverlap rest c := by
  cases o <;> simp [settleEvents, hasOverlap]

theorem hasOverlap_serial (ops : Nat → OpSpec) :
    ∀ (l : List Nat) (i t : Nat) (o : Outcome),
      hasOverlap (serial ops l (i, t, o)) 1 = false := by
  intro l
  induction l with
  | nil =>
    intro i t o
    have := hasOverlap_settleEvents i t o [] 0
    simpa using this
  | cons j js ih =>
    intro i t o
    rw [serial, hasOverlap_settleEvents]
    show hasOverlap (.eStart j (t + 100) :: serial ops js _) 0 = false
    rw [hasOverlap]
    simp only [show ¬ (2 ≤ 0 + 1) by omega, if_false]
    exact ih j (t + 100 + (ops j).dur 0) ((ops j).out 0)

theorem resolve_mem_serial (ops : Nat → OpSpec) :
    ∀ (l : List Nat) (i t : Nat) (o : Outcome) (v j : Nat),
      ((j = i ∧ o = .ok v) ∨ (j ∈ l ∧ (ops j).out 0 = .ok v)) →
      .eResolve j v ∈ serial ops l (i, t, o) := by
  intro l
  induction l with
  | nil =>
    intro i t o v j h
    rcases h with ⟨rfl, rfl⟩ | ⟨hj, _⟩
    · simp [serial, settleEvents]
    · cases hj
  | cons j' js ih =>
    intro i t o v j h
    rw [serial]
    rcases h with ⟨rfl, rfl⟩ | ⟨hj, hok⟩
    · exact List.mem_append_left _ (by simp [settleEvents])
    · refine List.mem_append_right _ (List.mem_cons_of_mem _ ?_)
      rcases List.mem_cons.mp hj with rfl | hj2
      · exact ih j _ _ v j (Or.inl ⟨rfl, hok⟩)
      · exact ih j' _ _ v j (Or.inr ⟨hj2, hok⟩)

theorem reject_mem_serial (ops : Nat → OpSpec) :
    ∀ (l : List Nat) (i t : Nat) (o : Outcome) (j : Nat),
      ((j = i ∧ o = .fail) ∨ (j ∈ l ∧ (ops j).out 0 = .fail)) →
      .eReject j ∈ serial ops l (i, t, o) := by
  intro l
  induction l with
  | nil =>
    intro i t o j h
    rcases h with ⟨rfl, rfl⟩ | ⟨hj, _⟩
    · simp [serial, settleEvents]
    · cases hj
  | cons j' js ih =>
    intro i t o j h
    rw [serial]
    rcases h with ⟨rfl, rfl⟩ | ⟨hj, hok⟩
    · exact List.mem_append_left _ (by simp [settleEvents])
    · refine List.mem_append_right _ (List.mem_cons_of_mem _ ?_)
      rcases List.mem_cons.mp hj with rfl | hj2
      · exact ih j _ _ j (Or.inl ⟨rfl, hok⟩)
      · exact ih j' _ _ j (Or.inr ⟨hj2, hok⟩)

/-- C6 (amended).  In the absence of 409 conflicts the request queue
serializes: running `n + 1` enqueued operations to completion starts their
wrapped requests in exactly the enqueued order, never has two requests in
flight at once, drains all timers, and settles each caller's promise with
its own operation's result (`resolve` of its value, or `reject` for a
non-409 error).  With a 409 conflict, serialization fails — see the
counterexample, where the retried operation overlaps another in flight. -/
theorem queue_serializes (ops : Nat → OpSpec) (n : Nat)
    (hout : ∀ i, i < n + 1 → (ops i).out 0 ≠ .conflict) :
    startsOf (run ops (2 * (n + 1)) (addAll ops (n + 1))).log =
      List.range (n + 1) ∧
    hasOverlap (run ops (2 * (n + 1)) (addAll ops (n + 1))).log 0 = false ∧
    (run ops (2 * (n + 1)) (addAll ops (n + 1))).timers = [] ∧
    (∀ i v, i < n + 1 → (ops i).out 0 = .ok v →
      .eResolve i v ∈ (run ops (2 * (n + 1)) (addAll ops (n + 1))).log) ∧
    (∀ i, i < n + 1 → (ops i).out 0 = .fail →
      .eReject i ∈ (run ops (2 * (n + 1)) (addAll ops (n + 1))).log) := by
  have hfuel : 2 * (n + 1) = 2 * (List.range' 1 n).length + 2 := by
    rw [List.length_range']
    ring
  obtain ⟨tf, Af, hrun⟩ := run_serial ops (List.range' 1 n) 0 ((ops 0).dur 0) 0
    ((ops 0).out 0) (fun j => if j = 0 then 1 else 0) [.eStart 0 0]
    (hout 0 (by omega))
    (fun j hj => by
      have h1 : 1 ≤ j := (List.mem_range'_1.mp hj).1
      simp [show j ≠ 0 by omega])
    (fun j hj => by
      have := List.mem_range'_1.mp hj
      exact hout j (by omega))
    (List.nodup_range' 1 n)
  rw [addAll_succ, hfuel, hrun]
  have hlog : ([.eStart 0 0] ++
      serial ops (List.range' 1 n) (0, (ops 0).dur 0, (ops 0).out 0)) =
      .eStart 0 0 ::
        serial ops (List.range' 1 n) (0, (ops 0).dur 0, (ops 0).out 0) := rfl
  refine ⟨?_, ?_, rfl, ?_, ?_⟩
  · rw [hlog, startsOf, List.filterMap_cons]
    show 0 :: startsOf (serial ops (List.range' 1 n) _) = _
    rw [startsOf_serial]
    rw [List.range_eq_range', List.range'_succ]
  · rw [hlog, hasOverlap]
    simp only [show ¬ (2 ≤ 0 + 1) by omega, if_false]
    exact hasOverlap_serial ops (List.range' 1 n) 0 ((ops 0).dur 0) ((ops 0).out 0)
  · intro i v hi hok
    rw [hlog]
    refine List.mem_cons_of_mem _ ?_
    by_cases hi0 : i = 0
    · subst hi0
      exact resolve_mem_serial ops (List.range' 1 n) 0 ((ops 0).dur 0)
        ((ops 0).out 0) v 0 (Or.inl ⟨rfl, hok⟩)
    · refine resolve_mem_serial ops (List.range' 1 n) 0 ((ops 0).dur 0)
        ((ops 0).out 0) v i (Or.inr ⟨?_, hok⟩)
      exact List.mem_range'_1.mpr ⟨by omega, by omega⟩
  · intro i hi hfl
    rw [hlog]
    refine List.mem_cons_of_mem _ ?_
    by_cases hi0 : i = 0
    · subst hi0
      exact reject_mem_serial ops (List.range' 1 n) 0 ((ops 0).dur 0)
        ((ops 0).out 0) 0 (Or.inl ⟨rfl, hfl⟩)
    · refine reject_mem_serial ops (List.range' 1 n) 0 ((ops 0).dur 0)
        ((ops 0).out 0) i (Or.inr ⟨?_, hfl⟩)
      exact List.mem_range'_1.mpr ⟨by omega, by omega⟩

/-- Counterexample for C6 as stated: with a 409 conflict in play, two
wrapped operations execute concurrently.  Operation 0 (50 ms) rejects
with 409 and operation 1 (2000 ms) is enqueued behind it: the `finally`
timer starts operation 1 at t=150, and the 1000 ms retry timer then resets
the busy flag and starts operation 0's retry at t=1050, inside operation
1's in-flight window (150–2150). -/
theorem queue_overlap_on_conflict :
    hasOverlap (run ops409 12 (addAll ops409 2)).log 0 = true ∧
    (run ops409 12 (addAll ops409 2)).timers = [] := by
  decide

/-- Witness for C6 on two concrete conflict-free operations. -/
theorem queue_serializes_witness :
    (∀ i, i < 1 + 1 → (opsW i).out 0 ≠ .conflict) ∧
    startsOf (run opsW (2 * (1 + 1)) (addAll opsW (1 + 1))).log =
      List.range (1 + 1) :=
  ⟨fun i _ => by simp [opsW], (queue_serializes opsW 1 fun i _ => by simp [opsW]).1⟩

/-! ### Request queue: 409 retry -/

theorem conflictTail_cons (v n k : Nat) (h : k < n) :
    conflictTail v n k =
      .eSettle 0 (1000 * k) :: .eStart 0 (1000 * (k + 1)) ::
        conflictTail v n (k + 1) := by
  unfold conflictTail
  rw [show n - k = (n - (k + 1)) + 1 by omega, List.range'_succ]
  simp

theorem conflictTail_last (v n : Nat) :
    conflictTail v n n = [.eSettle 0 (1000 * n), .eResolve 0 v] := by
  unfold conflictTail
  rw [Nat.sub_self]
  rfl

theorem run_conflict (n v : Nat) :
    ∀ (r k : Nat) (A : Nat → Nat) (L : List Event), k + r = n → A 0 = k + 1 →
      ∃ Af, run (conflictOps n v) (3 * r + 2)
          ⟨1000 * k, [⟨1000 * k, .settleA 0 ((conflictOps n v 0).out k)⟩], [],
            true, A, L⟩ =
        ⟨1000 * n + 100, [], [], false, Af, L ++ conflictTail v n k⟩ := by
  intro r
  induction r with
  | zero =>
    intro k A L hk _
    have hkn : k = n := by omega
    rw [hkn]
    refine ⟨A, ?_⟩
    rw [show (conflictOps n v 0).out n = .ok v by simp [conflictOps]]
    rw [conflictTail_last]
    rfl
  | succ r ihr =>
    intro k A L hk hA
    have hklt : k < n := by omega
    rw [show (conflictOps n v 0).out k = .conflict by simp [conflictOps, hklt]]
    have hfuel : 3 * (r + 1) + 2 = 3 * r + 2 + 3 := by ring
    rw [hfuel, run_three]
    have hstep1 : step (conflictOps n v)
        (⟨1000 * k, [⟨1000 * k, .settleA 0 .conflict⟩], [], true, A, L⟩ : QState) =
        ⟨1000 * k, [⟨1000 * k + 1000, .retryA 0⟩, ⟨1000 * k + 100, .processA⟩],
          [], false, A, L ++ [.eSettle 0 (1000 * k)]⟩ := rfl
    rw [hstep1]
    have hstep2 : step (conflictOps n v)
        (⟨1000 * k, [⟨1000 * k + 1000, .retryA 0⟩, ⟨1000 * k + 100, .processA⟩],
          [], false, A, L ++ [.eSettle 0 (1000 * k)]⟩ : QState) =
        ⟨1000 * k + 100, [⟨1000 * k + 1000, .retryA 0⟩], [], false, A,
          L ++ [.eSettle 0 (1000 * k)]⟩ := by
      rw [step, extractMin_two ⟨1000 * k + 1000, .retryA 0⟩
        ⟨1000 * k + 100, .processA⟩ (by
          show ¬ (1000 * k + 1000 ≤ 1000 * k + 100)
          omega)]
      rfl
    rw [hstep2]
    have hstep3 : step (conflictOps n v)
        (⟨1000 * k + 100, [⟨1000 * k + 1000, .retryA 0⟩], [], false, A,
          L ++ [.eSettle 0 (1000 * k)]⟩ : QState) =
        ⟨1000 * k + 1000,
          [⟨1000 * k + 1000, .settleA 0 ((conflictOps n v 0).out (A 0))⟩], [],
          true, fun j => if j = 0 then A 0 + 1 else A j,
          (L ++ [.eSettle 0 (1000 * k)]) ++ [.eStart 0 (1000 * k + 1000)]⟩ := rfl
    rw [hstep3, hA]
    have hm : 1000 * (k + 1) = 1000 * k + 1000 := by ring
    obtain ⟨Af, hrun⟩ := ihr (k + 1)
      (fun j => if j = 0 then k + 1 + 1 else A j)
      ((L ++ [.eSettle 0 (1000 * k)]) ++ [.eStart 0 (1000 * k + 1000)])
      (by omega) (by simp)
    rw [hm] at hrun
    refine ⟨Af, ?_⟩
    rw [hrun, conflictTail_cons v n k hklt]
    simp [hm, List.append_assoc]

theorem startTimesOf_blocks :
    ∀ (l : List Nat),
      startTimesOf (l.flatMap fun j =>
        [.eSettle 0 (1000 * j), .eStart 0 (1000 * (j + 1))]) =
        l.map fun j => ((0 : Nat), 1000 * (j + 1)) := by
  intro l
  induction l with
  | nil => rfl
  | cons j js ih =>
    rw [List.flatMap_cons, startTimesOf, List.filterMap_append]
    show ([(0, 1000 * (j + 1))] :
      List (Nat × Nat)) ++ startTimesOf (js.flatMap _) = _
    rw [ih, List.map_cons]
    rfl

theorem noRejects_append (l1 l2 : List Event) :
    noRejects (l1 ++ l2) = (noRejects l1 && noRejects l2) :=
  List.all_append

theorem noRejects_blocks :
    ∀ (l : List Nat),
      noRejects (l.flatMap fun j =>
        [.eSettle 0 (1000 * j), .eStart 0 (1000 * (j + 1))]) = true := by
  intro l
  induction l with
  | nil => rfl
  | cons j js ih =>
    rw [List.flatMap_cons, noRejects_append, ih]
    rfl

theorem startTimesOf_append' (l1 l2 : List Event) :
    startTimesOf (l1 ++ l2) = startTimesOf l1 ++ startTimesOf l2 :=
  List.filterMap_append l1 l2 _

/-- C7 (amended).  When the wrapped operation rejects with a 409, the queue
never rejects the caller's promise and re-enqueues the same operation at
the front after the fixed 1000 ms delay, with no cap on the number of
retries: an operation that conflicts `n` times (for any `n`) starts
attempts at exactly 0, 1000, …, 1000·n ms and finally resolves the caller
with its result, no `reject` ever appearing.  However, the retried
operation is not guaranteed to run before operations enqueued behind it:
the `finally` block's 100 ms `process()` timer can start a later operation
during the 1000 ms retry window (see the counterexample). -/
theorem conflict_queue_retries (n v : Nat) :
    (run (conflictOps n v) (3 * n + 2) (addAll (conflictOps n v) 1)).log =
      .eStart 0 0 :: conflictTail v n 0 ∧
    (run (conflictOps n v) (3 * n + 2) (addAll (conflictOps n v) 1)).timers = [] ∧
    startTimesOf (.eStart 0 0 :: conflictTail v n 0) =
      (List.range (n + 1)).map (fun j => ((0 : Nat), 1000 * j)) ∧
    .eResolve 0 v ∈ .eStart 0 0 :: conflictTail v n 0 ∧
    noRejects (.eStart 0 0 :: conflictTail v n 0) = true := by
  obtain ⟨Af, hrun⟩ := run_conflict n v n 0
    (fun j => if j = 0 then 1 else 0) [.eStart 0 0] (by omega) (by simp)
  have key : run (conflictOps n v) (3 * n + 2) (addAll (conflictOps n v) 1) =
      ⟨1000 * n + 100, [], [], false, Af,
        [.eStart 0 0] ++ conflictTail v n 0⟩ := by
    rw [addAll_succ]
    exact hrun
  refine ⟨by rw [key]; rfl, by rw [key], ?_, ?_, ?_⟩
  · have h1 : (.eStart 0 0 :: conflictTail v n 0 : List Event) =
        [.eStart 0 0] ++ conflictTail v n 0 := rfl
    rw [h1, startTimesOf_append']
    have h2 : startTimesOf [.eStart 0 0] = [((0 : Nat), (0 : Nat))] := rfl
    rw [h2]
    unfold conflictTail
    rw [Nat.sub_zero, startTimesOf_append', startTimesOf_blocks]
    have h3 : startTimesOf [.eSettle 0 (1000 * n), .eResolve 0 v] = [] := rfl
    rw [h3, List.append_nil]
    rw [← List.range_eq_range', List.range_succ_eq_map, List.map_cons,
      List.map_map]
    rfl
  · refine List.mem_cons_of_mem _ ?_
    unfold conflictTail
    exact List.mem_append_right _ (by simp)
  · rw [show (.eStart 0 0 :: conflictTail v n 0 : List Event) =
      [.eStart 0 0] ++ conflictTail v n 0 from rfl]
    rw [noRejects_append]
    unfold conflictTail
    rw [Nat.sub_zero, noRejects_append, noRejects_blocks]
    rfl

/-- Counterexample for C7 as stated: operation 0 rejects with a 409 at
t=50; operation 1, enqueued behind it, starts at t=150 — during the
1000 ms retry delay — while the retried operation 0 only starts at t=1050.
The retried operation therefore does not run before the operation enqueued
behind it (both callers still resolve with their own results). -/
theorem queue_retry_runs_after_behind_op :
    startTimesOf (run ops409 12 (addAll ops409 2)).log =
      [(0, 0), (1, 150), (0, 1050)] ∧
    .eResolve 0 1 ∈ (run ops409 12 (addAll ops409 2)).log ∧
    .eResolve 1 2 ∈ (run ops409 12 (addAll ops409 2)).log := by
  decide

end TribeChat
